import Mathlib

/-!
Verification development for the debate-orchestration backend.

The definitions below are a shallow embedding of
`src/backend/langgraph_debate_orchestrator.py` and `src/backend/debate_spec.py`:
the round specification model, the router, the four executors, the fairness
shuffler, the context assembler and the run driver.  Python dictionaries become
association lists, the injected random shuffle becomes an explicit permutation
argument, and the external completion collaborator becomes a function from the
ordered message blocks to `Except String String` (`Except.error` standing for
the exception classes the orchestrator catches: `ValueError`, `RuntimeError`,
`ConnectionError`).
-/

/-- Round types, from `debate_spec.py` (`RoundType`, a closed string enum). -/
inductive RoundType where
  | parallel
  | sequential
  | moderator
deriving DecidableEq, Repr

/-- The string value of a `RoundType`, as the Python `StrEnum` members carry. -/
def RoundType.str : RoundType → String
  | RoundType.parallel => "parallel"
  | RoundType.sequential => "sequential"
  | RoundType.moderator => "moderator"

/-- Context-assembly strategies, from `debate_spec.py` (`RoundContextStrategy`). -/
inductive RoundContextStrategy where
  | topic_only
  | full_transcript
deriving DecidableEq, Repr

/-- One round's configuration, from `debate_spec.py` (`RoundSpec`). -/
structure RoundSpec where
  title : String
  type : RoundType
  context_strategy : RoundContextStrategy
  prompt_template : String
deriving DecidableEq, Repr

/-- A debate specification, from `debate_spec.py` (`DebateSpec`): the Python
`dict[int, RoundSpec]` is embedded as an association list from round number to
round configuration (a Python dict has pairwise-distinct keys; theorems that
need that fact take it as a `Nodup` hypothesis). -/
structure DebateSpec where
  rounds : List (Nat × RoundSpec)
deriving DecidableEq, Repr

/-- An agent, from `models.py` (`Agent`). -/
structure Agent where
  id : String
  name : String
  description : String
  system_prompt : String
  tags : List String
  is_built_in : Bool
  created_at : Nat
  usage_count : Nat
  color : String
  icon : String
deriving DecidableEq, Repr

/-- A transcript entry, the dictionary built by
`LangGraphDebateOrchestrator._create_transcript_entry`. -/
structure TranscriptEntry where
  agent : String
  role : String
  round : Nat
  content : String
  color : String
  icon : String
deriving DecidableEq, Repr

/-- A status-context dictionary, as stored in `DebateState["status_context"]`.
The Python code uses plain dicts with varying key sets; absent keys are
embedded as `none`. -/
structure StatusContext where
  code : String
  round_number : Option Nat
  round_title : Option String
  round_type : Option String
  agent_name : Option String
  agent_icon : Option String
deriving DecidableEq, Repr

/-- A status context carrying only a `code` key, as returned by
`_route_debate`. -/
def code_status (c : String) : StatusContext :=
  { code := c
    round_number := none
    round_title := none
    round_type := none
    agent_name := none
    agent_icon := none }

/-- The LangGraph workflow state, from the `DebateState` TypedDict. -/
structure DebateState where
  topic : String
  agents : List Agent
  debate_transcript : List TranscriptEntry
  current_round : Nat
  round_agent_order : List Agent
  current_agent_index : Nat
  status_context : Option StatusContext
  last_speaker_id : Option String
deriving DecidableEq, Repr

/-- A message block sent to the completion collaborator, from
`langchain_core` `SystemMessage` / `HumanMessage` as used in `_invoke_agent`. -/
inductive Message where
  | system (content : String)
  | human (content : String)
deriving DecidableEq, Repr

/-- The external completion collaborator: takes the ordered message blocks and
either returns text or fails with an exception message (`Except.error` models
the `ValueError` / `RuntimeError` / `ConnectionError` classes that
`_invoke_agent` catches). -/
abbrev LLM := List Message → Except String String

/-- One event of the SSE stream produced by `run_debate`; the JSON/SSE
serialization (`_create_sse_event`) is elided, the payload is kept
structurally. -/
inductive Event where
  | statusUpdate (s : StatusContext)
  | agentResponse (e : TranscriptEntry)
  | debateComplete
deriving DecidableEq, Repr

/-- The outcome of a run: normal completion with its event stream, abort by the
step-budget guard, or an uncaught state-invariant error (a `KeyError` /
`IndexError` in the Python executors).  In each case the events already
emitted are carried. -/
inductive RunResult where
  | completed (events : List Event)
  | budgetExceeded (events : List Event)
  | invariantViolation (events : List Event)
deriving DecidableEq, Repr

/-- The round numbers defined by a spec, in insertion order (the keys of the
Python dict). -/
def spec_keys (spec : DebateSpec) : List Nat :=
  spec.rounds.map Prod.fst

/-- The round numbers in ascending order: `sorted(self.debate_spec.rounds.keys())`
(`self._ordered_rounds` in the orchestrator's constructor). -/
def ordered_rounds (spec : DebateSpec) : List Nat :=
  (spec_keys spec).insertionSort (fun a b => a ≤ b)

/-- Dictionary access `self.debate_spec.rounds.get(round_number)`. -/
def lookup_round (spec : DebateSpec) (round_number : Nat) : Option RoundSpec :=
  spec.rounds.lookup round_number

/-- `DebateSpec.title_for_round`. -/
def title_for_round (spec : DebateSpec) (round_number : Nat) : Option String :=
  (lookup_round spec round_number).map RoundSpec.title

/-- `DebateSpec.type_for_round`. -/
def type_for_round (spec : DebateSpec) (round_number : Nat) : Option RoundType :=
  (lookup_round spec round_number).map RoundSpec.type

/-- `_next_round_number`: the first round number in ascending order strictly
greater than the current one, or `current_round + 1` when none exists (a
sentinel not in the spec, so the router ends on the next tick). -/
def next_round_number (spec : DebateSpec) (current_round : Nat) : Nat :=
  match (ordered_rounds spec).find? (fun r => decide (current_round < r)) with
  | some r => r
  | none => current_round + 1

/-- `_title_for`: the spec title with fallbacks.  The source's fallback chain
reads the same title mapping twice (`title_for_round`, then the
`round_titles` snapshot built from the same spec), so a missing round or a
falsy (empty) title falls through to `"Round {n}"`. -/
def title_for (spec : DebateSpec) (round_number : Nat) : String :=
  match title_for_round spec round_number with
  | some t => if t = "" then "Round " ++ toString round_number else t
  | none => "Round " ++ toString round_number

/-- `_create_transcript_entry` on a `models.Agent`: the role is the agent's
first tag, defaulting to `"debater"`. -/
def create_transcript_entry (agent : Agent) (response : String) (round_num : Nat) :
    TranscriptEntry :=
  { agent := agent.name
    role := match agent.tags with
      | [] => "debater"
      | t :: _ => t
    round := round_num
    content := response
    color := agent.color
    icon := agent.icon }

/-- `_create_transcript_entry` on the `"Moderator"` string: a fixed identity
with fixed display metadata (the icon string is the exact byte content of the
source literal). -/
def create_moderator_entry (response : String) (round_num : Nat) : TranscriptEntry :=
  { agent := "Moderator"
    role := "moderator"
    round := round_num
    content := response
    color := "#6B7280"
    icon := "ðŸŽ¤" }

/-- `_build_round_context`: the context assembler.  `topic_only` returns the
topic verbatim; `full_transcript` joins a header with one three-line block per
transcript entry, in append order. -/
def build_round_context (topic : String) (transcript : List TranscriptEntry)
    (strategy : RoundContextStrategy) : String :=
  match strategy with
  | RoundContextStrategy.topic_only => topic
  | RoundContextStrategy.full_transcript =>
    let lines := ["Original Topic: " ++ topic, "", "Full Debate Transcript So Far:"]
      ++ transcript.flatMap (fun entry =>
          ["", entry.agent ++ " (Round " ++ toString entry.round ++ "):", entry.content])
    String.intercalate "\n" lines

/-- The message blocks `_invoke_agent` sends: the agent's system prompt (when
an agent is given), the round's prompt template, then the debate content. -/
def agent_messages (agent : Option Agent) (prompt_template : String) (content : String) :
    List Message :=
  (match agent with
    | some a => [Message.system a.system_prompt]
    | none => []) ++ [Message.system prompt_template, Message.human content]

/-- `_invoke_agent`: calls the completion collaborator and catches failures per
call, substituting the deterministic fallback text. -/
def invoke_agent (llm : LLM) (agent : Option Agent) (prompt_template : String)
    (content : String) : String :=
  match llm (agent_messages agent prompt_template content) with
  | Except.ok r => r
  | Except.error e =>
    let who := match agent with
      | none => "Moderator"
      | some a => a.name
    "Error generating response for " ++ who ++ ": " ++ e

/-- `_get_randomized_agents`: the fairness shuffler.  The outcome of
`random.shuffle` on the copied agent list is injected as `shuffled`.  When
`exclude_first_agent_id` is truthy (set and non-empty, per the Python
truthiness test), more than one agent exists, and the permutation starts with
the excluded agent, that element alone is rotated to the end. -/
def get_randomized_agents (agents : List Agent) (shuffled : List Agent)
    (exclude_first_agent_id : Option String) : List Agent :=
  if agents.isEmpty then []
  else
    match exclude_first_agent_id, shuffled with
    | some ex, first :: rest =>
      if ex ≠ "" ∧ 0 < rest.length ∧ first.id = ex then rest ++ [first]
      else first :: rest
    | _, _ => shuffled

/-- Per-round step cost of the budget calculator: broadcast and synthesis
rounds cost 2 (round-starting transition plus execution), turn-based rounds
cost 2 plus two steps per participant. -/
def round_cost (participant_count : Nat) : RoundType → Nat
  | RoundType.parallel => 2
  | RoundType.sequential => 2 + participant_count * 2
  | RoundType.moderator => 2

/-- The per-round cost of an optional round configuration (a round number that
is somehow missing from its own key list costs nothing; the branch is
unreachable for real specs). -/
def cost_of (participant_count : Nat) : Option RoundSpec → Nat
  | some cfg => round_cost participant_count cfg.type
  | none => 0

/-- The total step count the budget is derived from: 1 for the initial route
plus the per-round costs across all rounds in ascending order. -/
def total_steps (spec : DebateSpec) (participant_count : Nat) : Nat :=
  1 + ((ordered_rounds spec).map (fun r =>
    cost_of participant_count (lookup_round spec r))).sum

/-- Modelled from the spec: `_calculate_recursion_limit` is absent from
`src/backend/langgraph_debate_orchestrator.py` (only its tests in
`tests/test_orchestrator_recursion_limits.py` remain).  The per-round costs and
the `[25, 100]` clamp follow the spec; the rounding is pinned by
`test_complex_debate_recursion_limit`, which expects `27` for a total of `21`
(`21 * 1.3 = 27.3`), i.e. truncation toward zero (`Nat` division by 10 here),
not ceiling. -/
def calculate_recursion_limit (spec : DebateSpec) (participant_count : Nat) : Nat :=
  max 25 (min 100 (total_steps spec participant_count * 13 / 10))

/-- The step-budget formula exactly as the specification document words it:
`ceil(total * 1.3)` clamped to `[25, 100]` (`(total * 13 + 9) / 10` is the
ceiling of `total * 13 / 10` over the naturals). -/
def claimed_ceil_limit (spec : DebateSpec) (participant_count : Nat) : Nat :=
  max 25 (min 100 ((total_steps spec participant_count * 13 + 9) / 10))

/-- `_route_debate`'s status code: `END` when the current round is not in the
spec, otherwise the code of the branch for the round's type. -/
def route_code (spec : DebateSpec) (st : DebateState) : String :=
  match type_for_round spec st.current_round with
  | none => "END"
  | some RoundType.parallel => "OPENING_STATEMENTS"
  | some RoundType.sequential =>
    if st.round_agent_order.isEmpty then "SETUP_SEQUENTIAL_ROUND"
    else "SEQUENTIAL_TURN"
  | some RoundType.moderator => "MODERATOR_ROUND"

/-- `_route_debate`: the router node's state patch, a status context holding
only the next status code. -/
def route_debate (spec : DebateSpec) (st : DebateState) : StatusContext :=
  code_status (route_code spec st)

/-- `_execute_parallel_round`: the broadcast executor.  One completion call per
agent; entries are appended in the fixed agent-list order; the current round
advances via `_next_round_number`.  `none` models the `KeyError` raised when
the current round is missing from the spec. -/
def execute_parallel_round (spec : DebateSpec) (agents : List Agent) (llm : LLM)
    (st : DebateState) : Option DebateState :=
  match lookup_round spec st.current_round with
  | none => none
  | some cfg =>
    let status : StatusContext :=
      { code := "ROUND_STARTING"
        round_number := some st.current_round
        round_title := some (title_for spec st.current_round)
        round_type := some (((type_for_round spec st.current_round).map
          RoundType.str).getD "parallel")
        agent_name := none
        agent_icon := none }
    let content := build_round_context st.topic st.debate_transcript cfg.context_strategy
    let entries := agents.map (fun a =>
      create_transcript_entry a
        (invoke_agent llm (some a) cfg.prompt_template content) st.current_round)
    some { st with
      debate_transcript := st.debate_transcript ++ entries
      current_round := next_round_number spec st.current_round
      status_context := some status }

/-- `_setup_sequential_round`: computes the fairness-shuffled order, excluding
the previous turn-based round's last speaker from the first slot; `shuffled`
is the injected outcome of `random.shuffle`. -/
def setup_sequential_round (spec : DebateSpec) (agents : List Agent)
    (shuffled : List Agent) (st : DebateState) : DebateState :=
  let status : StatusContext :=
    { code := "ROUND_STARTING"
      round_number := some st.current_round
      round_title := some (title_for spec st.current_round)
      round_type := some (((type_for_round spec st.current_round).map
        RoundType.str).getD "sequential")
      agent_name := none
      agent_icon := none }
  { st with
    round_agent_order := get_randomized_agents agents shuffled st.last_speaker_id
    status_context := some status }

/-- `_execute_sequential_turn`: one turn of a turn-based round.  On the last
index it advances the round, clears the order, resets the index and records
the last speaker; otherwise it only advances the index.  `none` models the
`IndexError` / `KeyError` on an out-of-range index or a missing round. -/
def execute_sequential_turn (spec : DebateSpec) (llm : LLM) (st : DebateState) :
    Option DebateState :=
  match st.round_agent_order.get? st.current_agent_index with
  | none => none
  | some agent =>
    match lookup_round spec st.current_round with
    | none => none
    | some cfg =>
      let status : StatusContext :=
        { code := "AGENT_TURN_STARTING"
          round_number := some st.current_round
          round_title := some cfg.title
          round_type := none
          agent_name := some agent.name
          agent_icon := some agent.icon }
      let content := build_round_context st.topic st.debate_transcript cfg.context_strategy
      let response := invoke_agent llm (some agent) cfg.prompt_template content
      let transcript := st.debate_transcript
        ++ [create_transcript_entry agent response st.current_round]
      if st.round_agent_order.length ≤ st.current_agent_index + 1 then
        some { st with
          debate_transcript := transcript
          current_round := next_round_number spec st.current_round
          current_agent_index := 0
          round_agent_order := []
          status_context := some status
          last_speaker_id := some agent.id }
      else
        some { st with
          debate_transcript := transcript
          current_agent_index := st.current_agent_index + 1
          status_context := some status }

/-- `_execute_moderator_round`: the synthesis executor.  One completion call
with no persona block; the entry is attributed to the fixed moderator
identity; the round advances via `_next_round_number`. -/
def execute_moderator_round (spec : DebateSpec) (llm : LLM) (st : DebateState) :
    Option DebateState :=
  match lookup_round spec st.current_round with
  | none => none
  | some cfg =>
    let status : StatusContext :=
      { code := "ROUND_STARTING"
        round_number := some st.current_round
        round_title := some (title_for spec st.current_round)
        round_type := some (((type_for_round spec st.current_round).map
          RoundType.str).getD "moderator")
        agent_name := none
        agent_icon := none }
    let content := build_round_context st.topic st.debate_transcript cfg.context_strategy
    let response := invoke_agent llm none cfg.prompt_template content
    some { st with
      debate_transcript := st.debate_transcript
        ++ [create_moderator_entry response st.current_round]
      current_round := next_round_number spec st.current_round
      status_context := some status }

/-- The status-deduplicating emission step of `run_debate`: a status context is
emitted only when it differs from the last one emitted. -/
def emit_status (s : StatusContext) (last : Option StatusContext) (acc : List Event) :
    List Event × Option StatusContext :=
  if last = some s then (acc, last) else (acc ++ [Event.statusUpdate s], some s)

/-- The emission step of `run_debate` for an executor's state patch: first the
patch's status context (deduplicated), then one `agent_response` per
transcript entry beyond the last emitted index, in append order. -/
def emit_exec (old_len : Nat) (st2 : DebateState) (last : Option StatusContext)
    (acc : List Event) : List Event × Option StatusContext :=
  let p := match st2.status_context with
    | none => (acc, last)
    | some s => emit_status s last acc
  (p.1 ++ (st2.debate_transcript.drop old_len).map Event.agentResponse, p.2)

/-- Modelled from the spec: the run driver.  `run_debate` in
`src/backend/langgraph_debate_orchestrator.py` streams the graph without a
config, while `tests/test_orchestrator_recursion_limits.py` expects it to pass
`recursion_limit = self._calculate_recursion_limit()`; the recursion counter
itself lives in the external graph library.  Following the spec, the step
counter (one step per router or executor node) is checked once per Route
transition, and exceeding the limit aborts the run at once, as a distinct
fatal outcome, emitting nothing further.  `shuffles i` is the injected outcome
of the `i`-th `random.shuffle` call; `fuel` is the structural recursion bound
(`run_debate` supplies `limit + 1`, which the budget check keeps from ever
reaching zero). -/
def run_aux (spec : DebateSpec) (agents : List Agent) (shuffles : Nat → List Agent)
    (llm : LLM) (limit : Nat) :
    Nat → Nat → Nat → DebateState → Option StatusContext → List Event → RunResult
  | 0, _, _, _, _, acc => RunResult.budgetExceeded acc
  | fuel + 1, steps, si, st, last, acc =>
    if limit < steps + 1 then RunResult.budgetExceeded acc
    else
      let rs := route_debate spec st
      let e1 := emit_status rs last acc
      if rs.code = "END" then
        RunResult.completed (e1.1 ++ [Event.debateComplete])
      else if rs.code = "OPENING_STATEMENTS" then
        match execute_parallel_round spec agents llm st with
        | none => RunResult.invariantViolation e1.1
        | some st2 =>
          let e2 := emit_exec st.debate_transcript.length st2 e1.2 e1.1
          run_aux spec agents shuffles llm limit fuel (steps + 2) si st2 e2.2 e2.1
      else if rs.code = "SETUP_SEQUENTIAL_ROUND" then
        let st2 := setup_sequential_round spec agents (shuffles si) st
        let e2 := emit_exec st.debate_transcript.length st2 e1.2 e1.1
        run_aux spec agents shuffles llm limit fuel (steps + 2) (si + 1) st2 e2.2 e2.1
      else if rs.code = "SEQUENTIAL_TURN" then
        match execute_sequential_turn spec llm st with
        | none => RunResult.invariantViolation e1.1
        | some st2 =>
          let e2 := emit_exec st.debate_transcript.length st2 e1.2 e1.1
          run_aux spec agents shuffles llm limit fuel (steps + 2) si st2 e2.2 e2.1
      else if rs.code = "MODERATOR_ROUND" then
        match execute_moderator_round spec llm st with
        | none => RunResult.invariantViolation e1.1
        | some st2 =>
          let e2 := emit_exec st.debate_transcript.length st2 e1.2 e1.1
          run_aux spec agents shuffles llm limit fuel (steps + 2) si st2 e2.2 e2.1
      else RunResult.invariantViolation e1.1

/-- The initial `DebateState` built by `run_debate`, with the current round set
to the first round number of the spec. -/
def initial_state (topic : String) (agents : List Agent) (first_round : Nat) :
    DebateState :=
  { topic := topic
    agents := agents
    debate_transcript := []
    current_round := first_round
    round_agent_order := []
    current_agent_index := 0
    status_context := none
    last_speaker_id := none }

/-- `run_debate`: the full run.  An empty spec fails at initialization
(`self._ordered_rounds[0]` raises `IndexError`); otherwise the driver loops
from the first round under the computed step budget and yields the event
stream, ending with `debate_complete` when `End` is reached. -/
def run_debate (spec : DebateSpec) (agents : List Agent) (topic : String)
    (shuffles : Nat → List Agent) (llm : LLM) : RunResult :=
  match (ordered_rounds spec).head? with
  | none => RunResult.invariantViolation []
  | some first_round =>
    let limit := calculate_recursion_limit spec agents.length
    run_aux spec agents shuffles llm limit (limit + 1) 0 0
      (initial_state topic agents first_round) none []

/-- The predicate picking out `agent_response` events of a given round. -/
def is_response_for (r : Nat) : Event → Bool
  | Event.agentResponse e => decide (e.round = r)
  | _ => false

/-- How many `agent_response` events of round `r` a stream contains. -/
def responses_for_round (r : Nat) (evs : List Event) : Nat :=
  evs.countP (is_response_for r)

/-- How many `debate_complete` events a stream contains. -/
def completes_count (evs : List Event) : Nat :=
  evs.countP (fun e => decide (e = Event.debateComplete))

/-- The number of `agent_response` events a completed round of each type
contributes for `k` participants: one per participant for broadcast and
turn-based rounds, one for a synthesis round. -/
def round_quota (k : Nat) : RoundType → Nat
  | RoundType.parallel => k
  | RoundType.sequential => k
  | RoundType.moderator => 1

/-- The spec's rendering of the transcript suffix of a full-transcript
context: one `"{speaker} (Round {round}):\n{content}"` block per entry, in
append order, each preceded by a blank separator line. -/
def render_blocks : List TranscriptEntry → String
  | [] => ""
  | e :: rest =>
    "\n\n" ++ e.agent ++ " (Round " ++ toString e.round ++ "):\n" ++ e.content
      ++ render_blocks rest

theorem intercalate_go_append (s x : String) :
    ∀ (l : List String) (acc : String),
      String.intercalate.go acc s (l ++ [x]) = String.intercalate.go acc s l ++ s ++ x := by
  intro l
  induction l with
  | nil =>
    intro acc
    simp [String.intercalate.go]
  | cons a as ih =>
    intro acc
    rw [List.cons_append, String.intercalate.go, String.intercalate.go]
    exact ih (acc ++ s ++ a)

theorem intercalate_snoc (s x b : String) (l : List String) :
    String.intercalate s (b :: (l ++ [x])) = String.intercalate s (b :: l) ++ s ++ x := by
  simp only [String.intercalate]
  exact intercalate_go_append s x l b

theorem newline_pair (X : String) : "\n" ++ ("\n" ++ X) = "\n\n" ++ X := by
  rw [← String.append_assoc]
  have h : ("\n" : String) ++ "\n" = "\n\n" := by decide
  rw [h]

theorem close_newline (X : String) : "):" ++ ("\n" ++ X) = "):\n" ++ X := by
  rw [← String.append_assoc]
  have h : ("):" : String) ++ "\n" = "):\n" := by decide
  rw [h]

theorem render_blocks_aux :
    ∀ (t : List TranscriptEntry) (b : String) (l : List String),
      String.intercalate "\n" (b :: (l ++ t.flatMap (fun entry =>
        ["", entry.agent ++ " (Round " ++ toString entry.round ++ "):", entry.content])))
      = String.intercalate "\n" (b :: l) ++ render_blocks t := by
  intro t
  induction t with
  | nil =>
    intro b l
    simp [render_blocks, String.append_empty]
  | cons e rest ih =>
    intro b l
    rw [List.flatMap_cons, ← List.append_assoc]
    have hsplit : l ++ ["", e.agent ++ " (Round " ++ toString e.round ++ "):", e.content]
        = ((l ++ [""]) ++ [e.agent ++ " (Round " ++ toString e.round ++ "):"]) ++ [e.content] := by
      simp
    rw [hsplit, ih b, intercalate_snoc, intercalate_snoc, intercalate_snoc, render_blocks]
    simp only [String.append_empty, String.append_assoc]
    rw [newline_pair, close_newline]

theorem header_merge (X : String) :
    "\n\n" ++ ("Full Debate Transcript So Far:" ++ X)
      = "\n\nFull Debate Transcript So Far:" ++ X := by
  rw [← String.append_assoc]
  have h : ("\n\n" : String) ++ "Full Debate Transcript So Far:"
      = "\n\nFull Debate Transcript So Far:" := by decide
  rw [h]

/-- C8: the context assembler with the full-transcript strategy renders the
original topic followed by one `"{speaker} (Round {round}):\n{content}"`
block per transcript entry, in append order; it is a pure function (equal
transcript snapshots give byte-identical output); with the topic-only
strategy it returns the topic verbatim. -/
theorem c8_context_assembler :
    (∀ (topic : String) (transcript : List TranscriptEntry),
      build_round_context topic transcript RoundContextStrategy.full_transcript
        = "Original Topic: " ++ topic ++ "\n\nFull Debate Transcript So Far:"
          ++ render_blocks transcript) ∧
    (∀ (topic : String) (t1 t2 : List TranscriptEntry) (strategy : RoundContextStrategy),
      t1 = t2 →
        build_round_context topic t1 strategy = build_round_context topic t2 strategy) ∧
    (∀ (topic : String) (transcript : List TranscriptEntry),
      build_round_context topic transcript RoundContextStrategy.topic_only = topic) := by
  refine ⟨?_, ?_, ?_⟩
  · intro topic t
    have hb := render_blocks_aux t ("Original Topic: " ++ topic)
      ["", "Full Debate Transcript So Far:"]
    simp only [build_round_context, List.cons_append, List.nil_append] at hb ⊢
    rw [hb]
    simp only [String.intercalate, String.intercalate.go, String.append_empty,
      String.append_assoc]
    rw [newline_pair, header_merge]
  · intro topic t1 t2 strategy h
    rw [h]
  · intro topic t
    rfl

theorem c8_context_assembler_witness :
    (([⟨"A", "debater", 1, "hello", "#111111", "ia"⟩] : List TranscriptEntry)
        = [⟨"A", "debater", 1, "hello", "#111111", "ia"⟩]) ∧
    build_round_context "T" [⟨"A", "debater", 1, "hello", "#111111", "ia"⟩]
        RoundContextStrategy.full_transcript
      = build_round_context "T" [⟨"A", "debater", 1, "hello", "#111111", "ia"⟩]
        RoundContextStrategy.full_transcript :=
  ⟨rfl, c8_context_assembler.2.1 "T" _ _ RoundContextStrategy.full_transcript rfl⟩

/-- C10: a participant's transcript entry carries the participant's first tag
as its role (defaulting to `"debater"` for an untagged participant), while the
synthesis executor's entry carries the fixed `"Moderator"` identity with role
`"moderator"` and fixed display color and icon, and the transcript a synthesis
round produces is independent of the participants supplied to the run. -/
theorem c10_roles_and_moderator_identity :
    (∀ (a : Agent) (response : String) (r : Nat),
      (create_transcript_entry a response r).role = a.tags.headD "debater"
        ∧ (create_transcript_entry a response r).agent = a.name) ∧
    (∀ (response : String) (r : Nat),
      (create_moderator_entry response r).agent = "Moderator"
        ∧ (create_moderator_entry response r).role = "moderator"
        ∧ (create_moderator_entry response r).color = "#6B7280"
        ∧ (create_moderator_entry response r).icon = "ðŸŽ¤") ∧
    (∀ (spec : DebateSpec) (llm : LLM) (st : DebateState) (l : List Agent),
      (execute_moderator_round spec llm { st with agents := l }).map
          (fun s => s.debate_transcript)
        = (execute_moderator_round spec llm st).map (fun s => s.debate_transcript)) := by
  refine ⟨?_, ?_, ?_⟩
  · intro a response r
    refine ⟨?_, rfl⟩
    cases h : a.tags with
    | nil => simp [create_transcript_entry, h]
    | cons t rest => simp [create_transcript_entry, h]
  · intro response r
    exact ⟨rfl, rfl, rfl, rfl⟩
  · intro spec llm st l
    cases h : lookup_round spec st.current_round with
    | none => simp [execute_moderator_round, h]
    | some cfg => simp [execute_moderator_round, h]

theorem gra_empty (shuffled : List Agent) (ex : Option String) :
    get_randomized_agents [] shuffled ex = [] := by
  simp [get_randomized_agents]

theorem gra_none (agents shuffled : List Agent) (hA : agents.isEmpty = false) :
    get_randomized_agents agents shuffled none = shuffled := by
  simp only [get_randomized_agents, hA, Bool.false_eq_true, if_false]

theorem gra_some_nil (agents : List Agent) (e : String) (hA : agents.isEmpty = false) :
    get_randomized_agents agents [] (some e) = [] := by
  simp only [get_randomized_agents, hA, Bool.false_eq_true, if_false]

theorem gra_rotate (agents : List Agent) (first : Agent) (rest : List Agent) (e : String)
    (hA : agents.isEmpty = false) (hc : e ≠ "" ∧ 0 < rest.length ∧ first.id = e) :
    get_randomized_agents agents (first :: rest) (some e) = rest ++ [first] := by
  simp only [get_randomized_agents, hA, Bool.false_eq_true, if_false]
  rw [if_pos hc]

theorem gra_keep (agents : List Agent) (first : Agent) (rest : List Agent) (e : String)
    (hA : agents.isEmpty = false) (hc : ¬ (e ≠ "" ∧ 0 < rest.length ∧ first.id = e)) :
    get_randomized_agents agents (first :: rest) (some e) = first :: rest := by
  simp only [get_randomized_agents, hA, Bool.false_eq_true, if_false]
  rw [if_neg hc]

/-- C3: the fairness shuffler returns a permutation of the participants; an
empty list yields an empty result; when the exclusion id is set (a non-empty
string, per the source's truthiness test) and more than one participant
exists, the first element of the result never carries the excluded id, and a
permutation that starts with the excluded participant is fixed by rotating
that single element to the end; a lone participant is always returned
unchanged. -/
theorem c3_fairness_shuffler (agents shuffled : List Agent) (ex : Option String)
    (hid : (agents.map Agent.id).Nodup) (hp : shuffled.Perm agents) :
    (get_randomized_agents agents shuffled ex).Perm agents ∧
    (agents = [] → get_randomized_agents agents shuffled ex = []) ∧
    (∀ (e : String) (a : Agent), ex = some e → e ≠ "" → 1 < agents.length →
      (get_randomized_agents agents shuffled ex).head? = some a → a.id ≠ e) ∧
    (∀ (e : String) (first : Agent) (rest : List Agent), ex = some e → e ≠ "" →
      shuffled = first :: rest → rest ≠ [] → first.id = e →
      get_randomized_agents agents shuffled ex = rest ++ [first]) ∧
    (agents.length = 1 → get_randomized_agents agents shuffled ex = agents) := by
  refine ⟨?_, ?_, ?_, ?_, ?_⟩
  · cases hA : agents.isEmpty with
    | true =>
      have hAe : agents = [] := List.isEmpty_iff.mp hA
      subst hAe
      rw [gra_empty]
    | false =>
      cases ex with
      | none =>
        rw [gra_none agents shuffled hA]
        exact hp
      | some e =>
        cases hsh : shuffled with
        | nil =>
          rw [gra_some_nil agents e hA]
          exact hsh ▸ hp
        | cons first rest =>
          by_cases hc : e ≠ "" ∧ 0 < rest.length ∧ first.id = e
          · rw [gra_rotate agents first rest e hA hc]
            exact (List.perm_append_singleton first rest).trans (hsh ▸ hp)
          · rw [gra_keep agents first rest e hA hc]
            exact hsh ▸ hp
  · intro hAe
    rw [hAe]
    exact gra_empty shuffled ex
  · intro e a hex hne hlen hhead
    have hlsh : shuffled.length = agents.length := hp.length_eq
    have hA : agents.isEmpty = false := by
      cases agents with
      | nil => simp at hlen
      | cons x xs => rfl
    cases hsh : shuffled with
    | nil =>
      rw [hsh] at hlsh
      simp only [List.length_nil] at hlsh
      omega
    | cons first rest =>
      have hrest : 0 < rest.length := by
        rw [hsh] at hlsh
        simp only [List.length_cons] at hlsh
        omega
      have hnodup : ((first :: rest).map Agent.id).Nodup := by
        have hmapped := (hsh ▸ hp).map Agent.id
        exact (hmapped.nodup_iff).mpr hid
      rw [hex, hsh] at hhead
      by_cases hcid : first.id = e
      · rw [gra_rotate agents first rest e hA ⟨hne, hrest, hcid⟩] at hhead
        have hrne : rest ≠ [] := by
          cases rest with
          | nil => simp at hrest
          | cons y ys => simp
        rw [List.head?_append_of_ne_nil _ hrne] at hhead
        have hmem : a ∈ rest := by
          cases rest with
          | nil => simp at hhead
          | cons y ys =>
            simp only [List.head?_cons, Option.some_inj] at hhead
            rw [← hhead]
            simp
        have hfid : first.id ∉ rest.map Agent.id := by
          simp only [List.map_cons, List.nodup_cons] at hnodup
          exact hnodup.1
        intro haid
        refine hfid ?_
        rw [← hcid] at haid
        rw [← haid]
        exact List.mem_map_of_mem Agent.id hmem
      · rw [gra_keep agents first rest e hA
          (by intro h; exact hcid h.2.2)] at hhead
        simp only [List.head?_cons, Option.some_inj] at hhead
        rw [← hhead]
        exact hcid
  · intro e first rest hex hne hsh hrne hfid
    have hA : agents.isEmpty = false := by
      have hlsh : shuffled.length = agents.length := hp.length_eq
      rw [hsh] at hlsh
      cases agents with
      | nil => simp at hlsh
      | cons x xs => rfl
    have hrest : 0 < rest.length := by
      cases rest with
      | nil => exact absurd rfl hrne
      | cons y ys => simp
    rw [hex, hsh]
    exact gra_rotate agents first rest e hA ⟨hne, hrest, hfid⟩
  · intro hlen
    obtain ⟨x, hag⟩ := List.length_eq_one.mp hlen
    have hsh : shuffled = [x] := List.perm_singleton.mp (hag ▸ hp)
    rw [hag, hsh]
    cases ex with
    | none => rw [gra_none [x] [x] rfl]
    | some e => rw [gra_keep [x] x [] e rfl (by intro h; simp at h)]

def agentA : Agent :=
  { id := "a", name := "A", description := "", system_prompt := "pa", tags := ["debater"],
    is_built_in := true, created_at := 0, usage_count := 0, color := "#111111", icon := "ia" }

def agentB : Agent :=
  { id := "b", name := "B", description := "", system_prompt := "pb", tags := [],
    is_built_in := true, created_at := 0, usage_count := 0, color := "#222222", icon := "ib" }

/-- The three-round specification of the spec's end-to-end scenario: broadcast,
then turn-based, then synthesis. -/
def spec3 : DebateSpec :=
  { rounds :=
    [ (1, { title := "Opening", type := RoundType.parallel,
            context_strategy := RoundContextStrategy.topic_only, prompt_template := "p1" })
    , (2, { title := "Discussion", type := RoundType.sequential,
            context_strategy := RoundContextStrategy.full_transcript, prompt_template := "p2" })
    , (3, { title := "Synthesis", type := RoundType.moderator,
            context_strategy := RoundContextStrategy.full_transcript, prompt_template := "p3" }) ] }

/-- A completion collaborator that always succeeds with a fixed text. -/
def llm_ok : LLM := fun _ => Except.ok "ok"

/-- An injected shuffle outcome: every shuffle returns `[agentA, agentB]`. -/
def shuffles_ab : Nat → List Agent := fun _ => [agentA, agentB]

theorem c3_fairness_shuffler_witness :
    (([agentA, agentB].map Agent.id).Nodup) ∧
    ([agentA, agentB] : List Agent).Perm [agentA, agentB] ∧
    get_randomized_agents [agentA, agentB] [agentA, agentB] (some "a")
      = [agentB, agentA] := by
  refine ⟨by decide, List.Perm.refl _, ?_⟩
  exact (c3_fairness_shuffler [agentA, agentB] [agentA, agentB] (some "a") (by decide)
    (List.Perm.refl _)).2.2.2.1 "a" agentA [agentB] rfl (by decide) rfl (by decide) rfl

theorem keys_cost_sum (n : Nat) :
    ∀ (rounds : List (Nat × RoundSpec)), (rounds.map Prod.fst).Nodup →
      ((rounds.map Prod.fst).map (fun r => cost_of n (rounds.lookup r))).sum
        = (rounds.map (fun p => round_cost n p.2.type)).sum := by
  intro rounds
  induction rounds with
  | nil => intro _; rfl
  | cons p rest ih =>
    obtain ⟨k, c⟩ := p
    intro hnd
    simp only [List.map_cons, List.nodup_cons] at hnd
    obtain ⟨hnotmem, hndrest⟩ := hnd
    simp only [List.map_cons, List.sum_cons]
    have hhead : (((k, c) :: rest).lookup k : Option RoundSpec) = some c := by
      simp [List.lookup]
    rw [hhead]
    have htail : (rest.map Prod.fst).map (fun r => cost_of n (((k, c) :: rest).lookup r))
        = (rest.map Prod.fst).map (fun r => cost_of n (rest.lookup r)) := by
      apply List.map_congr_left
      intro r hr
      have hne : (r == k) = false := by
        rw [beq_eq_false_iff_ne]
        intro he
        exact hnotmem (he ▸ hr)
      simp [List.lookup, hne]
    rw [htail, ih hndrest]
    rfl

theorem spec_cost_sum (spec : DebateSpec) (n : Nat) (hnd : (spec_keys spec).Nodup) :
    ((ordered_rounds spec).map (fun r => cost_of n (lookup_round spec r))).sum
      = (spec.rounds.map (fun p => round_cost n p.2.type)).sum := by
  have hperm : (ordered_rounds spec).Perm (spec_keys spec) :=
    List.perm_insertionSort (fun a b => a ≤ b) (spec_keys spec)
  have h1 := (hperm.map (fun r => cost_of n (lookup_round spec r))).sum_eq
  rw [h1]
  exact keys_cost_sum n spec.rounds hnd

/-- The four-round specification of `test_complex_debate_recursion_limit`:
broadcast, two turn-based rounds, synthesis; with three participants it
totals 21 steps. -/
def c1_complex_spec : DebateSpec :=
  { rounds :=
    [ (1, { title := "P1", type := RoundType.parallel,
            context_strategy := RoundContextStrategy.topic_only, prompt_template := "" })
    , (2, { title := "S1", type := RoundType.sequential,
            context_strategy := RoundContextStrategy.full_transcript, prompt_template := "" })
    , (3, { title := "S2", type := RoundType.sequential,
            context_strategy := RoundContextStrategy.full_transcript, prompt_template := "" })
    , (4, { title := "M1", type := RoundType.moderator,
            context_strategy := RoundContextStrategy.full_transcript, prompt_template := "" }) ] }

/-- C1 counterexample: on the repository's own complex test spec with three
participants the total is 21 steps, the budget function returns `27`
(truncation of `27.3`, the value the test in
`tests/test_orchestrator_recursion_limits.py` asserts), while the claim's
`ceil` formula gives `28`. -/
theorem c1_counterexample :
    total_steps c1_complex_spec 3 = 21 ∧
    calculate_recursion_limit c1_complex_spec 3 = 27 ∧
    claimed_ceil_limit c1_complex_spec 3 = 28 ∧
    calculate_recursion_limit c1_complex_spec 3 ≠ claimed_ceil_limit c1_complex_spec 3 := by
  refine ⟨by decide, by decide, by decide, by decide⟩

/-- C1 amended: the budget is a pure function of the spec and the participant
count, equal to `floor(total * 1.3)` clamped to `[25, 100]`, where `total` is
1 plus the sum of the per-round costs (2 for broadcast and synthesis rounds,
`2 + 2n` for turn-based rounds); the result always lies in `[25, 100]`, and a
spec with a single broadcast round yields 25 for every participant count. -/
theorem c1_budget_floor_formula (spec : DebateSpec) (n : Nat)
    (hnd : (spec_keys spec).Nodup) :
    calculate_recursion_limit spec n
        = max 25 (min 100
            (((1 + (spec.rounds.map (fun p => round_cost n p.2.type)).sum) * 13) / 10))
    ∧ 25 ≤ calculate_recursion_limit spec n
    ∧ calculate_recursion_limit spec n ≤ 100
    ∧ (∀ (cfg : RoundSpec) (k : Nat), cfg.type = RoundType.parallel →
        calculate_recursion_limit { rounds := [(k, cfg)] } n = 25) := by
  refine ⟨?_, ?_, ?_, ?_⟩
  · unfold calculate_recursion_limit total_steps
    rw [spec_cost_sum spec n hnd]
  · exact le_max_left _ _
  · exact max_le (by norm_num) (min_le_left _ _)
  · intro cfg k htype
    have hord : ordered_rounds { rounds := [(k, cfg)] } = [k] := by
      simp [ordered_rounds, spec_keys]
    have hlk : lookup_round { rounds := [(k, cfg)] } k = some cfg := by
      simp [lookup_round, List.lookup]
    unfold calculate_recursion_limit total_steps
    rw [hord]
    simp only [List.map_cons, List.map_nil, List.sum_cons, List.sum_nil, hlk,
      cost_of, htype, round_cost]
    decide

theorem c1_budget_floor_formula_witness :
    (spec_keys c1_complex_spec).Nodup ∧ 25 ≤ calculate_recursion_limit c1_complex_spec 3 :=
  ⟨by decide, (c1_budget_floor_formula c1_complex_spec 3 (by decide)).2.1⟩

/-- The raw, already-parsed YAML fragment for one round, as consumed by
`load_debate_spec_from_yaml`: each field may be absent (a missing dict key
raises `KeyError` there), and `type` / `context_strategy` are free-form
strings validated against the closed enumerations. -/
structure RawRound where
  title : Option String
  type : Option String
  context_strategy : Option String
  prompt_template : Option String
deriving DecidableEq, Repr

/-- `RoundType(value)`: the string-to-enum conversion, `none` modelling the
`ValueError` Python raises for an unknown value. -/
def round_type_of_string (s : String) : Option RoundType :=
  if s = "parallel" then some RoundType.parallel
  else if s = "sequential" then some RoundType.sequential
  else if s = "moderator" then some RoundType.moderator
  else none

/-- `RoundContextStrategy(value)`: the string-to-enum conversion. -/
def strategy_of_string (s : String) : Option RoundContextStrategy :=
  if s = "topic_only" then some RoundContextStrategy.topic_only
  else if s = "full_transcript" then some RoundContextStrategy.full_transcript
  else none

/-- Loading one round's configuration from its raw fragment: a missing field
is a `KeyError`, an unknown enum value a `ValueError`. -/
def load_round (cfg : RawRound) : Except String RoundSpec :=
  match cfg.title, cfg.type, cfg.context_strategy, cfg.prompt_template with
  | some t, some ty, some cs, some pt =>
    match round_type_of_string ty, strategy_of_string cs with
    | some rty, some rcs =>
      Except.ok { title := t, type := rty, context_strategy := rcs, prompt_template := pt }
    | _, _ => Except.error "ValueError"
  | _, _, _, _ => Except.error "KeyError"

/-- The loop body of `load_debate_spec_from_yaml` over the raw `rounds`
mapping (the `int(key)` parse of the YAML key is elided: keys arrive as
numbers). -/
def load_rounds : List (Nat × RawRound) → Except String (List (Nat × RoundSpec))
  | [] => Except.ok []
  | (k, cfg) :: rest =>
    match load_round cfg with
    | Except.error e => Except.error e
    | Except.ok rs =>
      match load_rounds rest with
      | Except.error e => Except.error e
      | Except.ok tail => Except.ok ((k, rs) :: tail)

/-- `load_debate_spec_from_yaml`: builds a `DebateSpec` from the raw `rounds`
mapping (an absent or null `rounds` key arrives as the empty list, from
`raw.get("rounds", {})`).  No check on the number of rounds is performed. -/
def load_debate_spec (raw_rounds : List (Nat × RawRound)) : Except String DebateSpec :=
  match load_rounds raw_rounds with
  | Except.error e => Except.error e
  | Except.ok rs => Except.ok { rounds := rs }

/-- C9 counterexample: loading a source that defines no rounds succeeds and
yields a `DebateSpec` with zero rounds, so a successful load does not
guarantee at least one round. -/
theorem c9_counterexample :
    load_debate_spec [] = Except.ok { rounds := [] } ∧
    (∃ spec : DebateSpec, load_debate_spec [] = Except.ok spec ∧ spec.rounds.length = 0) :=
  ⟨rfl, { rounds := [] }, rfl, rfl⟩

theorem load_rounds_length :
    ∀ (raw : List (Nat × RawRound)) (rs : List (Nat × RoundSpec)),
      load_rounds raw = Except.ok rs → rs.length = raw.length := by
  intro raw
  induction raw with
  | nil =>
    intro rs h
    simp only [load_rounds, Except.ok.injEq] at h
    rw [← h]
    rfl
  | cons p rest ih =>
    obtain ⟨k, cfg⟩ := p
    intro rs h
    simp only [load_rounds] at h
    cases hl : load_round cfg with
    | error e => rw [hl] at h; cases h
    | ok r =>
      rw [hl] at h
      cases hr : load_rounds rest with
      | error e => rw [hr] at h; cases h
      | ok tail =>
        rw [hr] at h
        simp only [Except.ok.injEq] at h
        rw [← h]
        simp only [List.length_cons]
        rw [ih tail hr]

/-- C9 amended: the loader enforces no minimum round count — a successful load
yields exactly one round per source entry, so a source defining no rounds
loads successfully as an empty `DebateSpec`; round kinds and context
strategies are validated (unknown values fail the load); and a run started on
an empty spec fails immediately at initialization instead of executing. -/
theorem c9_load_no_min_rounds :
    (∀ (raw : List (Nat × RawRound)) (spec : DebateSpec),
      load_debate_spec raw = Except.ok spec → spec.rounds.length = raw.length) ∧
    load_debate_spec [] = Except.ok { rounds := [] } ∧
    load_debate_spec [(1, { title := some "T"
                            type := some "bogus"
                            context_strategy := some "topic_only"
                            prompt_template := some "p" })]
      = Except.error "ValueError" ∧
    (∀ (agents : List Agent) (topic : String) (shuffles : Nat → List Agent) (llm : LLM),
      run_debate { rounds := [] } agents topic shuffles llm
        = RunResult.invariantViolation []) := by
  refine ⟨?_, rfl, rfl, ?_⟩
  · intro raw spec h
    simp only [load_debate_spec] at h
    cases hr : load_rounds raw with
    | error e => rw [hr] at h; cases h
    | ok rs =>
      rw [hr] at h
      simp only [Except.ok.injEq] at h
      rw [← h]
      exact load_rounds_length raw rs hr
  · intro agents topic shuffles llm
    rfl

theorem c9_load_no_min_rounds_witness :
    load_debate_spec [] = Except.ok { rounds := [] } ∧
    ({ rounds := [] } : DebateSpec).rounds.length = ([] : List (Nat × RawRound)).length :=
  ⟨rfl, c9_load_no_min_rounds.1 [] { rounds := [] } rfl⟩

theorem route_debate_code (spec : DebateSpec) (st : DebateState) :
    (route_debate spec st).code = route_code spec st := rfl

theorem code_status_code (c : String) : (code_status c).code = c := rfl

theorem route_code_end (spec : DebateSpec) (st : DebateState)
    (h : lookup_round spec st.current_round = none) : route_code spec st = "END" := by
  simp [route_code, type_for_round, h]

theorem route_code_parallel (spec : DebateSpec) (st : DebateState) (cfg : RoundSpec)
    (h : lookup_round spec st.current_round = some cfg)
    (ht : cfg.type = RoundType.parallel) : route_code spec st = "OPENING_STATEMENTS" := by
  simp [route_code, type_for_round, h, ht]

theorem route_code_setup (spec : DebateSpec) (st : DebateState) (cfg : RoundSpec)
    (h : lookup_round spec st.current_round = some cfg)
    (ht : cfg.type = RoundType.sequential) (ho : st.round_agent_order = []) :
    route_code spec st = "SETUP_SEQUENTIAL_ROUND" := by
  simp [route_code, type_for_round, h, ht, ho]

theorem route_code_turn (spec : DebateSpec) (st : DebateState) (cfg : RoundSpec)
    (h : lookup_round spec st.current_round = some cfg)
    (ht : cfg.type = RoundType.sequential) (ho : st.round_agent_order ≠ []) :
    route_code spec st = "SEQUENTIAL_TURN" := by
  have hne : st.round_agent_order.isEmpty = false := by
    cases hoo : st.round_agent_order with
    | nil => exact absurd hoo ho
    | cons x xs => rfl
  simp [route_code, type_for_round, h, ht, hne]

theorem route_code_moderator (spec : DebateSpec) (st : DebateState) (cfg : RoundSpec)
    (h : lookup_round spec st.current_round = some cfg)
    (ht : cfg.type = RoundType.moderator) : route_code spec st = "MODERATOR_ROUND" := by
  simp [route_code, type_for_round, h, ht]

theorem run_aux_budget (spec : DebateSpec) (agents : List Agent)
    (shuffles : Nat → List Agent) (llm : LLM) (limit fuel steps si : Nat)
    (st : DebateState) (last : Option StatusContext) (acc : List Event)
    (hb : limit < steps + 1) :
    run_aux spec agents shuffles llm limit (fuel + 1) steps si st last acc
      = RunResult.budgetExceeded acc := by
  simp only [run_aux]
  rw [if_pos hb]

theorem run_aux_end (spec : DebateSpec) (agents : List Agent)
    (shuffles : Nat → List Agent) (llm : LLM) (limit fuel steps si : Nat)
    (st : DebateState) (last : Option StatusContext) (acc : List Event)
    (hb : steps + 1 ≤ limit) (hcode : route_code spec st = "END") :
    run_aux spec agents shuffles llm limit (fuel + 1) steps si st last acc
      = RunResult.completed
          ((emit_status (code_status "END") last acc).1 ++ [Event.debateComplete]) := by
  simp only [run_aux]
  rw [if_neg (by omega)]
  simp only [route_debate, hcode, code_status_code]
  simp

theorem run_aux_parallel (spec : DebateSpec) (agents : List Agent)
    (shuffles : Nat → List Agent) (llm : LLM) (limit fuel steps si : Nat)
    (st : DebateState) (last : Option StatusContext) (acc : List Event)
    (st2 : DebateState)
    (hb : steps + 1 ≤ limit) (hcode : route_code spec st = "OPENING_STATEMENTS")
    (hex : execute_parallel_round spec agents llm st = some st2) :
    run_aux spec agents shuffles llm limit (fuel + 1) steps si st last acc
      = run_aux spec agents shuffles llm limit fuel (steps + 2) si st2
          (emit_exec st.debate_transcript.length st2
            (emit_status (code_status "OPENING_STATEMENTS") last acc).2
            (emit_status (code_status "OPENING_STATEMENTS") last acc).1).2
          (emit_exec st.debate_transcript.length st2
            (emit_status (code_status "OPENING_STATEMENTS") last acc).2
            (emit_status (code_status "OPENING_STATEMENTS") last acc).1).1 := by
  simp only [run_aux]
  rw [if_neg (by omega)]
  simp only [route_debate, hcode, code_status_code]
  rw [hex]
  simp

theorem run_aux_setup (spec : DebateSpec) (agents : List Agent)
    (shuffles : Nat → List Agent) (llm : LLM) (limit fuel steps si : Nat)
    (st : DebateState) (last : Option StatusContext) (acc : List Event)
    (hb : steps + 1 ≤ limit) (hcode : route_code spec st = "SETUP_SEQUENTIAL_ROUND") :
    run_aux spec agents shuffles llm limit (fuel + 1) steps si st last acc
      = run_aux spec agents shuffles llm limit fuel (steps + 2) (si + 1)
          (setup_sequential_round spec agents (shuffles si) st)
          (emit_exec st.debate_transcript.length
            (setup_sequential_round spec agents (shuffles si) st)
            (emit_status (code_status "SETUP_SEQUENTIAL_ROUND") last acc).2
            (emit_status (code_status "SETUP_SEQUENTIAL_ROUND") last acc).1).2
          (emit_exec st.debate_transcript.length
            (setup_sequential_round spec agents (shuffles si) st)
            (emit_status (code_status "SETUP_SEQUENTIAL_ROUND") last acc).2
            (emit_status (code_status "SETUP_SEQUENTIAL_ROUND") last acc).1).1 := by
  simp only [run_aux]
  rw [if_neg (by omega)]
  simp only [route_debate, hcode, code_status_code]
  simp

theorem run_aux_turn (spec : DebateSpec) (agents : List Agent)
    (shuffles : Nat → List Agent) (llm : LLM) (limit fuel steps si : Nat)
    (st : DebateState) (last : Option StatusContext) (acc : List Event)
    (st2 : DebateState)
    (hb : steps + 1 ≤ limit) (hcode : route_code spec st = "SEQUENTIAL_TURN")
    (hex : execute_sequential_turn spec llm st = some st2) :
    run_aux spec agents shuffles llm limit (fuel + 1) steps si st last acc
      = run_aux spec agents shuffles llm limit fuel (steps + 2) si st2
          (emit_exec st.debate_transcript.length st2
            (emit_status (code_status "SEQUENTIAL_TURN") last acc).2
            (emit_status (code_status "SEQUENTIAL_TURN") last acc).1).2
          (emit_exec st.debate_transcript.length st2
            (emit_status (code_status "SEQUENTIAL_TURN") last acc).2
            (emit_status (code_status "SEQUENTIAL_TURN") last acc).1).1 := by
  simp only [run_aux]
  rw [if_neg (by omega)]
  simp only [route_debate, hcode, code_status_code]
  rw [hex]
  simp

theorem run_aux_moderator (spec : DebateSpec) (agents : List Agent)
    (shuffles : Nat → List Agent) (llm : LLM) (limit fuel steps si : Nat)
    (st : DebateState) (last : Option StatusContext) (acc : List Event)
    (st2 : DebateState)
    (hb : steps + 1 ≤ limit) (hcode : route_code spec st = "MODERATOR_ROUND")
    (hex : execute_moderator_round spec llm st = some st2) :
    run_aux spec agents shuffles llm limit (fuel + 1) steps si st last acc
      = run_aux spec agents shuffles llm limit fuel (steps + 2) si st2
          (emit_exec st.debate_transcript.length st2
            (emit_status (code_status "MODERATOR_ROUND") last acc).2
            (emit_status (code_status "MODERATOR_ROUND") last acc).1).2
          (emit_exec st.debate_transcript.length st2
            (emit_status (code_status "MODERATOR_ROUND") last acc).2
            (emit_status (code_status "MODERATOR_ROUND") last acc).1).1 := by
  simp only [run_aux]
  rw [if_neg (by omega)]
  simp only [route_debate, hcode, code_status_code]
  rw [hex]
  simp

theorem run_aux_parallel_fail (spec : DebateSpec) (agents : List Agent)
    (shuffles : Nat → List Agent) (llm : LLM) (limit fuel steps si : Nat)
    (st : DebateState) (last : Option StatusContext) (acc : List Event)
    (hb : steps + 1 ≤ limit) (hcode : route_code spec st = "OPENING_STATEMENTS")
    (hex : execute_parallel_round spec agents llm st = none) :
    run_aux spec agents shuffles llm limit (fuel + 1) steps si st last acc
      = RunResult.invariantViolation
          (emit_status (code_status "OPENING_STATEMENTS") last acc).1 := by
  simp only [run_aux]
  rw [if_neg (by omega)]
  simp only [route_debate, hcode, code_status_code]
  rw [hex]
  simp

theorem run_aux_turn_fail (spec : DebateSpec) (agents : List Agent)
    (shuffles : Nat → List Agent) (llm : LLM) (limit fuel steps si : Nat)
    (st : DebateState) (last : Option StatusContext) (acc : List Event)
    (hb : steps + 1 ≤ limit) (hcode : route_code spec st = "SEQUENTIAL_TURN")
    (hex : execute_sequential_turn spec llm st = none) :
    run_aux spec agents shuffles llm limit (fuel + 1) steps si st last acc
      = RunResult.invariantViolation
          (emit_status (code_status "SEQUENTIAL_TURN") last acc).1 := by
  simp only [run_aux]
  rw [if_neg (by omega)]
  simp only [route_debate, hcode, code_status_code]
  rw [hex]
  simp

theorem run_aux_moderator_fail (spec : DebateSpec) (agents : List Agent)
    (shuffles : Nat → List Agent) (llm : LLM) (limit fuel steps si : Nat)
    (st : DebateState) (last : Option StatusContext) (acc : List Event)
    (hb : steps + 1 ≤ limit) (hcode : route_code spec st = "MODERATOR_ROUND")
    (hex : execute_moderator_round spec llm st = none) :
    run_aux spec agents shuffles llm limit (fuel + 1) steps si st last acc
      = RunResult.invariantViolation
          (emit_status (code_status "MODERATOR_ROUND") last acc).1 := by
  simp only [run_aux]
  rw [if_neg (by omega)]
  simp only [route_debate, hcode, code_status_code]
  rw [hex]
  simp

theorem responses_append (r : Nat) (a b : List Event) :
    responses_for_round r (a ++ b) = responses_for_round r a + responses_for_round r b :=
  List.countP_append _ a b

theorem completes_append (a b : List Event) :
    completes_count (a ++ b) = completes_count a + completes_count b :=
  List.countP_append _ a b

theorem responses_emit_status (r : Nat) (s : StatusContext)
    (last : Option StatusContext) (acc : List Event) :
    responses_for_round r (emit_status s last acc).1 = responses_for_round r acc := by
  unfold emit_status
  split
  · rfl
  · rw [responses_append]
    have h0 : responses_for_round r [Event.statusUpdate s] = 0 := rfl
    rw [h0, Nat.add_zero]

theorem completes_emit_status (s : StatusContext)
    (last : Option StatusContext) (acc : List Event) :
    completes_count (emit_status s last acc).1 = completes_count acc := by
  unfold emit_status
  split
  · rfl
  · rw [completes_append]
    have h0 : completes_count [Event.statusUpdate s] = 0 := rfl
    rw [h0, Nat.add_zero]

theorem responses_entries (r : Nat) (es : List TranscriptEntry) :
    responses_for_round r (es.map Event.agentResponse)
      = es.countP (fun e => decide (e.round = r)) := by
  unfold responses_for_round
  rw [List.countP_map]
  rfl

theorem completes_entries (es : List TranscriptEntry) :
    completes_count (es.map Event.agentResponse) = 0 := by
  unfold completes_count
  rw [List.countP_map]
  apply List.countP_eq_zero.mpr
  intro a _
  simp [Function.comp]

theorem responses_emit_exec (r : Nat) (n : Nat) (st2 : DebateState)
    (last : Option StatusContext) (acc : List Event) :
    responses_for_round r (emit_exec n st2 last acc).1
      = responses_for_round r acc
        + (st2.debate_transcript.drop n).countP (fun e => decide (e.round = r)) := by
  unfold emit_exec
  cases hs : st2.status_context with
  | none =>
    simp only [hs, responses_append, responses_entries]
  | some s =>
    simp only [hs, responses_append, responses_entries, responses_emit_status]

theorem completes_emit_exec (n : Nat) (st2 : DebateState)
    (last : Option StatusContext) (acc : List Event) :
    completes_count (emit_exec n st2 last acc).1 = completes_count acc := by
  unfold emit_exec
  cases hs : st2.status_context with
  | none =>
    simp only [hs, completes_append, completes_entries, Nat.add_zero]
  | some s =>
    simp only [hs, completes_append, completes_entries, completes_emit_status,
      Nat.add_zero]

theorem run_aux_budget_no_complete (spec : DebateSpec) (agents : List Agent)
    (shuffles : Nat → List Agent) (llm : LLM) (limit : Nat) :
    ∀ (fuel steps si : Nat) (st : DebateState) (last : Option StatusContext)
      (acc evs : List Event),
      run_aux spec agents shuffles llm limit fuel steps si st last acc
        = RunResult.budgetExceeded evs →
      completes_count evs = completes_count acc := by
  intro fuel
  induction fuel with
  | zero =>
    intro steps si st last acc evs h
    simp only [run_aux, RunResult.budgetExceeded.injEq] at h
    rw [← h]
  | succ n ih =>
    intro steps si st last acc evs h
    by_cases hb : limit < steps + 1
    · rw [run_aux_budget spec agents shuffles llm limit n steps si st last acc hb] at h
      simp only [RunResult.budgetExceeded.injEq] at h
      rw [← h]
    · have hb' : steps + 1 ≤ limit := by omega
      cases hlk : lookup_round spec st.current_round with
      | none =>
        rw [run_aux_end spec agents shuffles llm limit n steps si st last acc hb'
          (route_code_end spec st hlk)] at h
        cases h
      | some cfg =>
        cases htp : cfg.type with
        | parallel =>
          cases hex : execute_parallel_round spec agents llm st with
          | none =>
            rw [run_aux_parallel_fail spec agents shuffles llm limit n steps si st last acc
              hb' (route_code_parallel spec st cfg hlk htp) hex] at h
            cases h
          | some st2 =>
            rw [run_aux_parallel spec agents shuffles llm limit n steps si st last acc st2
              hb' (route_code_parallel spec st cfg hlk htp) hex] at h
            rw [ih _ _ _ _ _ _ h, completes_emit_exec, completes_emit_status]
        | sequential =>
          by_cases ho : st.round_agent_order = []
          · rw [run_aux_setup spec agents shuffles llm limit n steps si st last acc hb'
              (route_code_setup spec st cfg hlk htp ho)] at h
            rw [ih _ _ _ _ _ _ h, completes_emit_exec, completes_emit_status]
          · cases hex : execute_sequential_turn spec llm st with
            | none =>
              rw [run_aux_turn_fail spec agents shuffles llm limit n steps si st last acc
                hb' (route_code_turn spec st cfg hlk htp ho) hex] at h
              cases h
            | some st2 =>
              rw [run_aux_turn spec agents shuffles llm limit n steps si st last acc st2
                hb' (route_code_turn spec st cfg hlk htp ho) hex] at h
              rw [ih _ _ _ _ _ _ h, completes_emit_exec, completes_emit_status]
        | moderator =>
          cases hex : execute_moderator_round spec llm st with
          | none =>
            rw [run_aux_moderator_fail spec agents shuffles llm limit n steps si st last acc
              hb' (route_code_moderator spec st cfg hlk htp) hex] at h
            cases h
          | some st2 =>
            rw [run_aux_moderator spec agents shuffles llm limit n steps si st last acc st2
              hb' (route_code_moderator spec st cfg hlk htp) hex] at h
            rw [ih _ _ _ _ _ _ h, completes_emit_exec, completes_emit_status]

/-- A one-round, turn-based-only specification; run with zero participants the
router loops between setup and route forever, so only the step budget stops
it. -/
def seq_only_spec : DebateSpec :=
  { rounds :=
    [ (1, { title := "S", type := RoundType.sequential,
            context_strategy := RoundContextStrategy.full_transcript,
            prompt_template := "p" }) ] }

/-- A run that exhausts its computed budget: the turn-based-only spec with no
participants. -/
def c2_run : RunResult := run_debate seq_only_spec [] "T" (fun _ => []) llm_ok

/-- The events the budget-aborted run had emitted when the guard fired. -/
def c2_evs : List Event :=
  match c2_run with
  | RunResult.budgetExceeded e => e
  | _ => []

/-- C2: the step counter is checked once per Route transition; the moment it
exceeds the limit the run aborts with the distinct budget-exceeded outcome,
emitting nothing beyond the events already emitted; a state whose current
round is absent from the spec instead terminates normally through `End`
(appending at most the `END` status and the final `debate_complete`, no
transcript entries); and a budget-aborted run never emits
`debate_complete`. -/
theorem c2_budget_guard (spec : DebateSpec) (agents : List Agent)
    (shuffles : Nat → List Agent) (llm : LLM) (limit fuel steps si : Nat)
    (st : DebateState) (last : Option StatusContext) (acc : List Event)
    (topic : String) :
    (limit < steps + 1 →
      run_aux spec agents shuffles llm limit (fuel + 1) steps si st last acc
        = RunResult.budgetExceeded acc) ∧
    (steps + 1 ≤ limit → lookup_round spec st.current_round = none →
      run_aux spec agents shuffles llm limit (fuel + 1) steps si st last acc
        = RunResult.completed
            ((emit_status (code_status "END") last acc).1 ++ [Event.debateComplete])) ∧
    (∀ evs, run_debate spec agents topic shuffles llm = RunResult.budgetExceeded evs →
      completes_count evs = 0) := by
  refine ⟨?_, ?_, ?_⟩
  · intro hb
    exact run_aux_budget spec agents shuffles llm limit fuel steps si st last acc hb
  · intro hb hlk
    exact run_aux_end spec agents shuffles llm limit fuel steps si st last acc hb
      (route_code_end spec st hlk)
  · intro evs h
    simp only [run_debate] at h
    cases hh : (ordered_rounds spec).head? with
    | none => rw [hh] at h; cases h
    | some r0 =>
      rw [hh] at h
      have h0 := run_aux_budget_no_complete spec agents shuffles llm
        (calculate_recursion_limit spec agents.length) _ _ _ _ _ _ _ h
      simpa using h0

theorem c2_budget_guard_witness :
    (0 < 0 + 1) ∧
    run_aux spec3 [agentA] shuffles_ab llm_ok 0 (0 + 1) 0 0
        (initial_state "T" [agentA] 1) none []
      = RunResult.budgetExceeded [] ∧
    (0 + 1 ≤ 25 ∧ lookup_round spec3 9 = none) ∧
    run_aux spec3 [agentA] shuffles_ab llm_ok 25 (0 + 1) 0 0
        (initial_state "T" [agentA] 9) none []
      = RunResult.completed
          ((emit_status (code_status "END") none []).1 ++ [Event.debateComplete]) ∧
    c2_run = RunResult.budgetExceeded c2_evs ∧
    completes_count c2_evs = 0 := by
  refine ⟨by decide, ?_, ⟨by decide, by decide⟩, ?_, ?_, ?_⟩
  · exact (c2_budget_guard spec3 [agentA] shuffles_ab llm_ok 0 0 0 0
      (initial_state "T" [agentA] 1) none [] "T").1 (by decide)
  · exact (c2_budget_guard spec3 [agentA] shuffles_ab llm_ok 25 0 0 0
      (initial_state "T" [agentA] 9) none [] "T").2.1 (by decide) (by decide)
  · rfl
  · exact (c2_budget_guard seq_only_spec [] (fun _ => []) llm_ok 0 0 0 0
      (initial_state "T" [] 1) none [] "T").2.2 c2_evs rfl

theorem lookup_isSome_iff_mem :
    ∀ (rounds : List (Nat × RoundSpec)) (r : Nat),
      (rounds.lookup r).isSome = true ↔ r ∈ rounds.map Prod.fst := by
  intro rounds r
  induction rounds with
  | nil => simp [List.lookup]
  | cons p rest ih =>
    obtain ⟨k, c⟩ := p
    by_cases h : r = k
    · subst h
      simp [List.lookup]
    · have hbeq : (r == k) = false := beq_eq_false_iff_ne.mpr h
      simp [List.lookup, hbeq, ih, h]

theorem lookup_round_mem (spec : DebateSpec) (r : Nat) (cfg : RoundSpec)
    (h : lookup_round spec r = some cfg) : r ∈ spec_keys spec := by
  apply (lookup_isSome_iff_mem spec.rounds r).mp
  rw [lookup_round] at h
  rw [h]
  rfl

theorem lookup_round_none_not_mem (spec : DebateSpec) (r : Nat)
    (h : lookup_round spec r = none) : r ∉ spec_keys spec := by
  intro hmem
  have := (lookup_isSome_iff_mem spec.rounds r).mpr hmem
  rw [lookup_round] at h
  rw [h] at this
  cases this

theorem mem_lookup_round_isSome (spec : DebateSpec) (r : Nat)
    (h : r ∈ spec_keys spec) : ∃ cfg, lookup_round spec r = some cfg := by
  have := (lookup_isSome_iff_mem spec.rounds r).mpr h
  cases hl : lookup_round spec r with
  | none =>
    rw [lookup_round] at hl
    rw [hl] at this
    cases this
  | some cfg => exact ⟨cfg, rfl⟩

theorem ordered_rounds_sorted (spec : DebateSpec) :
    (ordered_rounds spec).Sorted (fun a b => a ≤ b) :=
  List.sorted_insertionSort (fun a b => a ≤ b) (spec_keys spec)

theorem mem_ordered_rounds (spec : DebateSpec) (r : Nat) :
    r ∈ ordered_rounds spec ↔ r ∈ spec_keys spec :=
  (List.perm_insertionSort (fun a b => a ≤ b) (spec_keys spec)).mem_iff

theorem find?_sorted_min {p : Nat → Bool} :
    ∀ (l : List Nat), l.Sorted (fun a b => a ≤ b) →
      ∀ (a : Nat), l.find? p = some a → ∀ b ∈ l, p b = true → a ≤ b := by
  intro l
  induction l with
  | nil =>
    intro _ a hf
    cases hf
  | cons x xs ih =>
    intro hs a hf b hb hpb
    rw [List.sorted_cons] at hs
    by_cases hpx : p x = true
    · rw [List.find?_cons_of_pos _ hpx, Option.some_inj] at hf
      subst hf
      cases hb with
      | head => exact Nat.le_refl _
      | tail _ hbx => exact hs.1 b hbx
    · rw [List.find?_cons_of_neg _ hpx] at hf
      cases hb with
      | head => exact absurd hpb hpx
      | tail _ hbx => exact ih hs.2 a hf b hbx hpb

theorem next_round_gt (spec : DebateSpec) (cur : Nat) :
    cur < next_round_number spec cur := by
  unfold next_round_number
  cases hf : (ordered_rounds spec).find? (fun r => decide (cur < r)) with
  | none => exact Nat.lt_succ_self cur
  | some r =>
    have := List.find?_some hf
    simpa using this

theorem next_round_min (spec : DebateSpec) (cur : Nat) :
    ∀ k ∈ spec_keys spec, cur < k → next_round_number spec cur ≤ k := by
  intro k hk hck
  unfold next_round_number
  cases hf : (ordered_rounds spec).find? (fun r => decide (cur < r)) with
  | none =>
    exfalso
    have hmem : k ∈ ordered_rounds spec := (mem_ordered_rounds spec k).mpr hk
    have := List.find?_eq_none.mp hf k hmem
    simp at this
    omega
  | some r =>
    exact find?_sorted_min (ordered_rounds spec) (ordered_rounds_sorted spec) r hf k
      ((mem_ordered_rounds spec k).mpr hk) (by simpa using hck)

theorem next_round_cases (spec : DebateSpec) (cur : Nat) :
    next_round_number spec cur ∈ spec_keys spec ∨
      (next_round_number spec cur = cur + 1 ∧ ∀ k ∈ spec_keys spec, k ≤ cur) := by
  unfold next_round_number
  cases hf : (ordered_rounds spec).find? (fun r => decide (cur < r)) with
  | none =>
    right
    refine ⟨rfl, ?_⟩
    intro k hk
    have hmem : k ∈ ordered_rounds spec := (mem_ordered_rounds spec k).mpr hk
    have := List.find?_eq_none.mp hf k hmem
    simp at this
    omega
  | some r =>
    left
    exact (mem_ordered_rounds spec r).mp (List.mem_of_find?_eq_some hf)

theorem next_round_gap (spec : DebateSpec) (cur r : Nat)
    (h1 : cur < r) (h2 : r < next_round_number spec cur) :
    lookup_round spec r = none := by
  cases hl : lookup_round spec r with
  | none => rfl
  | some cfg =>
    have hmem := lookup_round_mem spec r cfg hl
    have := next_round_min spec cur r hmem h1
    omega

theorem next_round_none_beyond (spec : DebateSpec) (cur : Nat)
    (h : lookup_round spec (next_round_number spec cur) = none) :
    ∀ k ∈ spec_keys spec, k < next_round_number spec cur := by
  intro k hk
  cases next_round_cases spec cur with
  | inl hin =>
    exfalso
    exact lookup_round_none_not_mem spec _ h hin
  | inr hout =>
    have := hout.2 k hk
    have hgt := next_round_gt spec cur
    omega

theorem execute_parallel_round_eq (spec : DebateSpec) (agents : List Agent) (llm : LLM)
    (st : DebateState) (cfg : RoundSpec)
    (hlk : lookup_round spec st.current_round = some cfg) :
    execute_parallel_round spec agents llm st = some
      { st with
        debate_transcript := st.debate_transcript ++ agents.map (fun a =>
          create_transcript_entry a
            (invoke_agent llm (some a) cfg.prompt_template
              (build_round_context st.topic st.debate_transcript cfg.context_strategy))
            st.current_round)
        current_round := next_round_number spec st.current_round
        status_context := some
          { code := "ROUND_STARTING"
            round_number := some st.current_round
            round_title := some (title_for spec st.current_round)
            round_type := some (((type_for_round spec st.current_round).map
              RoundType.str).getD "parallel")
            agent_name := none
            agent_icon := none } } := by
  simp only [execute_parallel_round, hlk]

theorem execute_moderator_round_eq (spec : DebateSpec) (llm : LLM)
    (st : DebateState) (cfg : RoundSpec)
    (hlk : lookup_round spec st.current_round = some cfg) :
    execute_moderator_round spec llm st = some
      { st with
        debate_transcript := st.debate_transcript ++
          [create_moderator_entry
            (invoke_agent llm none cfg.prompt_template
              (build_round_context st.topic st.debate_transcript cfg.context_strategy))
            st.current_round]
        current_round := next_round_number spec st.current_round
        status_context := some
          { code := "ROUND_STARTING"
            round_number := some st.current_round
            round_title := some (title_for spec st.current_round)
            round_type := some (((type_for_round spec st.current_round).map
              RoundType.str).getD "moderator")
            agent_name := none
            agent_icon := none } } := by
  simp only [execute_moderator_round, hlk]

theorem execute_sequential_turn_last_eq (spec : DebateSpec) (llm : LLM)
    (st : DebateState) (agent : Agent) (cfg : RoundSpec)
    (hag : st.round_agent_order.get? st.current_agent_index = some agent)
    (hlk : lookup_round spec st.current_round = some cfg)
    (hlast : st.round_agent_order.length ≤ st.current_agent_index + 1) :
    execute_sequential_turn spec llm st = some
      { st with
        debate_transcript := st.debate_transcript ++
          [create_transcript_entry agent
            (invoke_agent llm (some agent) cfg.prompt_template
              (build_round_context st.topic st.debate_transcript cfg.context_strategy))
            st.current_round]
        current_round := next_round_number spec st.current_round
        current_agent_index := 0
        round_agent_order := []
        status_context := some
          { code := "AGENT_TURN_STARTING"
            round_number := some st.current_round
            round_title := some cfg.title
            round_type := none
            agent_name := some agent.name
            agent_icon := some agent.icon }
        last_speaker_id := some agent.id } := by
  simp only [execute_sequential_turn, hag, hlk]
  rw [if_pos hlast]

theorem execute_sequential_turn_mid_eq (spec : DebateSpec) (llm : LLM)
    (st : DebateState) (agent : Agent) (cfg : RoundSpec)
    (hag : st.round_agent_order.get? st.current_agent_index = some agent)
    (hlk : lookup_round spec st.current_round = some cfg)
    (hmid : ¬ st.round_agent_order.length ≤ st.current_agent_index + 1) :
    execute_sequential_turn spec llm st = some
      { st with
        debate_transcript := st.debate_transcript ++
          [create_transcript_entry agent
            (invoke_agent llm (some agent) cfg.prompt_template
              (build_round_context st.topic st.debate_transcript cfg.context_strategy))
            st.current_round]
        current_agent_index := st.current_agent_index + 1
        status_context := some
          { code := "AGENT_TURN_STARTING"
            round_number := some st.current_round
            round_title := some cfg.title
            round_type := none
            agent_name := some agent.name
            agent_icon := some agent.icon } } := by
  simp only [execute_sequential_turn, hag, hlk]
  rw [if_neg hmid]

/-- A broadcast-round state whose `status_context` is the router's
`OPENING_STATEMENTS` status, as it is when the broadcast executor runs. -/
def c4_state : DebateState :=
  { topic := "T"
    agents := [agentA]
    debate_transcript := []
    current_round := 1
    round_agent_order := []
    current_agent_index := 0
    status_context := some (code_status "OPENING_STATEMENTS")
    last_speaker_id := none }

/-- C4 counterexample: the broadcast executor does not leave everything but
the transcript and the current round unchanged — it also overwrites the
status context (with the round-starting status), so "changes nothing else in
the state" fails at this concrete input. -/
theorem c4_counterexample :
    (execute_parallel_round spec3 [agentA] llm_ok c4_state).map DebateState.status_context
      ≠ some c4_state.status_context := by
  decide

/-- C4 amended: for every broadcast round the executor appends exactly one
entry per participant in the fixed participant-list order, advances
`current_round` to the smallest round number defined in the spec strictly
greater than the current one (or to `current_round + 1` when no such round
exists), and changes nothing else in the state apart from recording the
round-starting status context. -/
theorem c4_broadcast_executor (spec : DebateSpec) (agents : List Agent) (llm : LLM)
    (st : DebateState) (cfg : RoundSpec)
    (hlk : lookup_round spec st.current_round = some cfg) :
    ∃ st2, execute_parallel_round spec agents llm st = some st2 ∧
      st2.debate_transcript = st.debate_transcript ++ agents.map (fun a =>
        create_transcript_entry a
          (invoke_agent llm (some a) cfg.prompt_template
            (build_round_context st.topic st.debate_transcript cfg.context_strategy))
          st.current_round) ∧
      st2.current_round = next_round_number spec st.current_round ∧
      st.current_round < st2.current_round ∧
      (∀ k ∈ spec_keys spec, st.current_round < k → st2.current_round ≤ k) ∧
      (st2.current_round ∈ spec_keys spec ∨
        (st2.current_round = st.current_round + 1 ∧
          ∀ k ∈ spec_keys spec, k ≤ st.current_round)) ∧
      st2.topic = st.topic ∧
      st2.agents = st.agents ∧
      st2.round_agent_order = st.round_agent_order ∧
      st2.current_agent_index = st.current_agent_index ∧
      st2.last_speaker_id = st.last_speaker_id := by
  refine ⟨_, execute_parallel_round_eq spec agents llm st cfg hlk, rfl, rfl,
    next_round_gt spec st.current_round, next_round_min spec st.current_round,
    next_round_cases spec st.current_round, rfl, rfl, rfl, rfl, rfl⟩

/-- The round-1 configuration of `spec3`. -/
def cfg1 : RoundSpec :=
  { title := "Opening", type := RoundType.parallel,
    context_strategy := RoundContextStrategy.topic_only, prompt_template := "p1" }

theorem c4_broadcast_executor_witness :
    lookup_round spec3 (initial_state "T" [agentA, agentB] 1).current_round = some cfg1 ∧
    (∃ st2, execute_parallel_round spec3 [agentA, agentB] llm_ok
        (initial_state "T" [agentA, agentB] 1) = some st2 ∧
      st2.current_round = next_round_number spec3 1) := by
  refine ⟨rfl, ?_⟩
  obtain ⟨st2, h1, h2, h3, hrest⟩ := c4_broadcast_executor spec3 [agentA, agentB] llm_ok
    (initial_state "T" [agentA, agentB] 1) cfg1 rfl
  exact ⟨st2, h1, h3⟩

/-- C6: the turn-step executor appends one entry for the acting participant in
both cases; on the last index of `turn_order` it advances the round, clears
the order, resets the index and records the acting participant's id as the
last speaker; otherwise it only increments the index, leaving the round, the
order and the last speaker unchanged. -/
theorem c6_turn_executor (spec : DebateSpec) (llm : LLM) (st : DebateState)
    (agent : Agent) (cfg : RoundSpec)
    (hag : st.round_agent_order.get? st.current_agent_index = some agent)
    (hlk : lookup_round spec st.current_round = some cfg) :
    (st.current_agent_index + 1 = st.round_agent_order.length →
      ∃ st2, execute_sequential_turn spec llm st = some st2 ∧
        st2.debate_transcript = st.debate_transcript ++
          [create_transcript_entry agent
            (invoke_agent llm (some agent) cfg.prompt_template
              (build_round_context st.topic st.debate_transcript cfg.context_strategy))
            st.current_round] ∧
        st2.current_round = next_round_number spec st.current_round ∧
        st.current_round < st2.current_round ∧
        st2.round_agent_order = [] ∧
        st2.current_agent_index = 0 ∧
        st2.last_speaker_id = some agent.id) ∧
    (st.current_agent_index + 1 < st.round_agent_order.length →
      ∃ st2, execute_sequential_turn spec llm st = some st2 ∧
        st2.debate_transcript = st.debate_transcript ++
          [create_transcript_entry agent
            (invoke_agent llm (some agent) cfg.prompt_template
              (build_round_context st.topic st.debate_transcript cfg.context_strategy))
            st.current_round] ∧
        st2.current_agent_index = st.current_agent_index + 1 ∧
        st2.current_round = st.current_round ∧
        st2.round_agent_order = st.round_agent_order ∧
        st2.last_speaker_id = st.last_speaker_id) := by
  constructor
  · intro hlast
    refine ⟨_, execute_sequential_turn_last_eq spec llm st agent cfg hag hlk (by omega),
      rfl, rfl, next_round_gt spec st.current_round, rfl, rfl, rfl⟩
  · intro hmid
    refine ⟨_, execute_sequential_turn_mid_eq spec llm st agent cfg hag hlk (by omega),
      rfl, rfl, rfl, rfl, rfl⟩

/-- The round-2 configuration of `spec3`. -/
def cfg2 : RoundSpec :=
  { title := "Discussion", type := RoundType.sequential,
    context_strategy := RoundContextStrategy.full_transcript, prompt_template := "p2" }

/-- A mid-round turn-based state: two participants, index 0. -/
def c6_state : DebateState :=
  { topic := "T"
    agents := [agentA, agentB]
    debate_transcript := []
    current_round := 2
    round_agent_order := [agentA, agentB]
    current_agent_index := 0
    status_context := none
    last_speaker_id := none }

/-- The same turn-based state at the last index. -/
def c6_state_last : DebateState := { c6_state with current_agent_index := 1 }

theorem c6_turn_executor_witness :
    (c6_state.round_agent_order.get? c6_state.current_agent_index = some agentA ∧
      lookup_round spec3 c6_state.current_round = some cfg2 ∧
      c6_state.current_agent_index + 1 < c6_state.round_agent_order.length) ∧
    (∃ st2, execute_sequential_turn spec3 llm_ok c6_state = some st2 ∧
      st2.current_agent_index = 1 ∧ st2.current_round = 2 ∧
      st2.round_agent_order = [agentA, agentB]) ∧
    (∃ st2, execute_sequential_turn spec3 llm_ok c6_state_last = some st2 ∧
      st2.round_agent_order = [] ∧ st2.current_agent_index = 0 ∧
      st2.last_speaker_id = some "b") := by
  refine ⟨⟨rfl, rfl, by decide⟩, ?_, ?_⟩
  · obtain ⟨st2, h1, h2, h3, h4, h5, h6⟩ :=
      (c6_turn_executor spec3 llm_ok c6_state agentA cfg2 rfl rfl).2 (by decide)
    exact ⟨st2, h1, h3, h4, h5⟩
  · obtain ⟨st2, h1, h2, h3, h4, h5, h6, h7⟩ :=
      (c6_turn_executor spec3 llm_ok c6_state_last agentB cfg2 rfl rfl).1 (by decide)
    exact ⟨st2, h1, h5, h6, h7⟩

/-- How many `agent_response` events round `r` still owes from state `st`
onward: its full quota if the round lies ahead, the remaining turns if it is
the turn-based round in progress, nothing if it is already behind or not in
the spec. -/
def st_quota (spec : DebateSpec) (k : Nat) (st : DebateState) (r : Nat) : Nat :=
  match lookup_round spec r with
  | none => 0
  | some cfg =>
    if r < st.current_round then 0
    else if r = st.current_round then
      (if st.round_agent_order = [] then round_quota k cfg.type
       else st.round_agent_order.length - st.current_agent_index)
    else round_quota k cfg.type

/-- The state invariant the driver maintains: a non-empty turn order only
occurs inside a turn-based round of the spec, as a permutation of the
participants with the index in bounds; an empty order comes with index zero;
and once the current round has left the spec all spec rounds are behind it. -/
structure RunInv (spec : DebateSpec) (agents : List Agent) (st : DebateState) : Prop where
  order_seq : st.round_agent_order ≠ [] →
    ∃ cfg, lookup_round spec st.current_round = some cfg ∧
      cfg.type = RoundType.sequential
  order_perm : st.round_agent_order ≠ [] → st.round_agent_order.Perm agents
  idx_lt : st.round_agent_order ≠ [] →
    st.current_agent_index < st.round_agent_order.length
  idx_zero : st.round_agent_order = [] → st.current_agent_index = 0
  consistent : lookup_round spec st.current_round = none →
    ∀ r ∈ spec_keys spec, r < st.current_round

theorem st_quota_next_general (spec : DebateSpec) (k : Nat) (st st2 : DebateState)
    (cfg : RoundSpec) (amt : Nat)
    (hlk : lookup_round spec st.current_round = some cfg)
    (hamt : st_quota spec k st st.current_round = amt)
    (h2r : st2.current_round = next_round_number spec st.current_round)
    (h2o : st2.round_agent_order = []) :
    ∀ r, st_quota spec k st r
      = (if r = st.current_round then amt else 0) + st_quota spec k st2 r := by
  intro r
  have hnext := next_round_gt spec st.current_round
  cases hr : lookup_round spec r with
  | none =>
    have hne : r ≠ st.current_round := by
      intro he
      rw [he, hlk] at hr
      cases hr
    simp only [st_quota, hr, if_neg hne, Nat.add_zero]
  | some cfgr =>
    rcases Nat.lt_trichotomy r st.current_round with hlt | heq | hgt
    · have hlt2 : r < st2.current_round := by omega
      have hne : r ≠ st.current_round := by omega
      simp only [st_quota, hr, if_pos hlt, if_neg hne, if_pos hlt2, Nat.add_zero]
    · rw [← hamt, if_pos heq, heq]
      have hq2 : st_quota spec k st2 st.current_round = 0 := by
        simp only [st_quota, hlk]
        rw [if_pos (by omega : st.current_round < st2.current_round)]
      rw [hq2, Nat.add_zero]
    · have hmem := lookup_round_mem spec r cfgr hr
      have hmin := next_round_min spec st.current_round r hmem hgt
      have hne : ¬ r = st.current_round := by omega
      have hnl : ¬ r < st.current_round := by omega
      have hn2 : ¬ r < st2.current_round := by rw [h2r]; omega
      simp only [st_quota, hr]
      rw [if_neg hnl, if_neg hne, if_neg hne, if_neg hn2, Nat.zero_add]
      by_cases h2eq : r = st2.current_round
      · rw [if_pos h2eq, h2o, if_pos rfl]
      · rw [if_neg h2eq]

theorem st_quota_setup (spec : DebateSpec) (k : Nat) (st st2 : DebateState)
    (cfg : RoundSpec)
    (hlk : lookup_round spec st.current_round = some cfg)
    (htp : cfg.type = RoundType.sequential)
    (ho : st.round_agent_order = [])
    (h2r : st2.current_round = st.current_round)
    (h2o : st2.round_agent_order = [] ∨
      (st2.round_agent_order.length = k ∧ st2.current_agent_index = 0)) :
    ∀ r, st_quota spec k st r = st_quota spec k st2 r := by
  intro r
  cases hr : lookup_round spec r with
  | none => simp only [st_quota, hr]
  | some cfgr =>
    simp only [st_quota, hr, h2r]
    by_cases hlt : r < st.current_round
    · rw [if_pos hlt, if_pos hlt]
    · rw [if_neg hlt, if_neg hlt]
      by_cases heq : r = st.current_round
      · have hcfg : cfgr = cfg := by
          rw [heq, hlk] at hr
          exact (Option.some_inj.mp hr).symm
        subst hcfg
        rw [if_pos heq, if_pos heq, ho, if_pos rfl]
        cases h2o with
        | inl h => rw [h, if_pos rfl]
        | inr h =>
          by_cases hoe : st2.round_agent_order = []
          · rw [if_pos hoe]
          · rw [if_neg hoe, h.1, h.2, htp, Nat.sub_zero]
            rfl
      · rw [if_neg heq, if_neg heq]

theorem st_quota_turn_mid (spec : DebateSpec) (k : Nat) (st st2 : DebateState)
    (cfg : RoundSpec)
    (hlk : lookup_round spec st.current_round = some cfg)
    (ho : st.round_agent_order ≠ [])
    (hidx : st.current_agent_index < st.round_agent_order.length)
    (h2r : st2.current_round = st.current_round)
    (h2o : st2.round_agent_order = st.round_agent_order)
    (h2i : st2.current_agent_index = st.current_agent_index + 1) :
    ∀ r, st_quota spec k st r
      = (if r = st.current_round then 1 else 0) + st_quota spec k st2 r := by
  intro r
  cases hr : lookup_round spec r with
  | none =>
    have hne : r ≠ st.current_round := by
      intro he
      rw [he, hlk] at hr
      cases hr
    simp only [st_quota, hr, if_neg hne, Nat.add_zero]
  | some cfgr =>
    simp only [st_quota, hr, h2r, h2o, h2i]
    by_cases hlt : r < st.current_round
    · rw [if_pos hlt, if_pos hlt, if_neg (by omega : ¬ r = st.current_round)]
    · rw [if_neg hlt, if_neg hlt]
      by_cases heq : r = st.current_round
      · rw [if_pos heq, if_pos heq, if_pos heq, if_neg ho, if_neg ho]
        omega
      · rw [if_neg heq, if_neg heq, if_neg heq, Nat.zero_add]

theorem countP_entries_round (r rnd : Nat) (agents : List Agent) (f : Agent → String) :
    (agents.map (fun a => create_transcript_entry a (f a) rnd)).countP
      (fun e => decide (e.round = r)) = if rnd = r then agents.length else 0 := by
  induction agents with
  | nil => simp
  | cons a rest ih =>
    simp only [List.map_cons, List.countP_cons, ih, create_transcript_entry]
    by_cases h : rnd = r
    · rw [if_pos h]
      simp [h]
    · rw [if_neg h]
      simp [h]

theorem countP_single_entry (r rnd : Nat) (e : TranscriptEntry) (he : e.round = rnd) :
    ([e].countP (fun e => decide (e.round = r))) = if rnd = r then 1 else 0 := by
  simp only [List.countP_cons, List.countP_nil]
  by_cases h : rnd = r
  · rw [if_pos h]
    simp [he, h]
  · rw [if_neg h]
    simp [he, h]

theorem gra_perm (agents shuffled : List Agent) (ex : Option String)
    (hp : shuffled.Perm agents) :
    (get_randomized_agents agents shuffled ex).Perm agents := by
  cases hA : agents.isEmpty with
  | true =>
    have hAe : agents = [] := List.isEmpty_iff.mp hA
    subst hAe
    rw [gra_empty]
  | false =>
    cases ex with
    | none =>
      rw [gra_none agents shuffled hA]
      exact hp
    | some e =>
      cases hsh : shuffled with
      | nil =>
        rw [gra_some_nil agents e hA]
        exact hsh ▸ hp
      | cons first rest =>
        by_cases hc : e ≠ "" ∧ 0 < rest.length ∧ first.id = e
        · rw [gra_rotate agents first rest e hA hc]
          exact (List.perm_append_singleton first rest).trans (hsh ▸ hp)
        · rw [gra_keep agents first rest e hA hc]
          exact hsh ▸ hp

theorem RunInv_advance (spec : DebateSpec) (agents : List Agent)
    (st st2 : DebateState)
    (h2r : st2.current_round = next_round_number spec st.current_round)
    (h2o : st2.round_agent_order = [])
    (h2i : st2.current_agent_index = 0) :
    RunInv spec agents st2 := by
  constructor
  · intro hne
    exact absurd h2o hne
  · intro hne
    exact absurd h2o hne
  · intro hne
    exact absurd h2o hne
  · intro _
    exact h2i
  · intro hnone
    rw [h2r] at hnone ⊢
    exact next_round_none_beyond spec st.current_round hnone

theorem RunInv_setup (spec : DebateSpec) (agents : List Agent)
    (st st2 : DebateState) (cfg : RoundSpec)
    (hinv : RunInv spec agents st)
    (hlk : lookup_round spec st.current_round = some cfg)
    (htp : cfg.type = RoundType.sequential)
    (ho : st.round_agent_order = [])
    (h2r : st2.current_round = st.current_round)
    (h2o : st2.round_agent_order.Perm agents)
    (h2i : st2.current_agent_index = st.current_agent_index) :
    RunInv spec agents st2 := by
  constructor
  · intro _
    refine ⟨cfg, ?_, htp⟩
    rw [h2r]
    exact hlk
  · intro _
    exact h2o
  · intro hne
    rw [h2i, hinv.idx_zero ho]
    cases hoo : st2.round_agent_order with
    | nil => exact absurd hoo hne
    | cons x xs => simp [hoo]
  · intro _
    rw [h2i]
    exact hinv.idx_zero ho
  · intro hnone
    rw [h2r, hlk] at hnone
    cases hnone

theorem RunInv_mid (spec : DebateSpec) (agents : List Agent)
    (st st2 : DebateState) (cfg : RoundSpec)
    (hinv : RunInv spec agents st)
    (hlk : lookup_round spec st.current_round = some cfg)
    (htp : cfg.type = RoundType.sequential)
    (ho : st.round_agent_order ≠ [])
    (hidx2 : st.current_agent_index + 1 < st.round_agent_order.length)
    (h2r : st2.current_round = st.current_round)
    (h2o : st2.round_agent_order = st.round_agent_order)
    (h2i : st2.current_agent_index = st.current_agent_index + 1) :
    RunInv spec agents st2 := by
  constructor
  · intro _
    refine ⟨cfg, ?_, htp⟩
    rw [h2r]
    exact hlk
  · intro _
    rw [h2o]
    exact hinv.order_perm ho
  · intro _
    rw [h2o, h2i]
    exact hidx2
  · intro hoe
    rw [h2o] at hoe
    exact absurd hoe ho
  · intro hnone
    rw [h2r, hlk] at hnone
    cases hnone

theorem head_ordered_min (spec : DebateSpec) (r0 : Nat)
    (hh : (ordered_rounds spec).head? = some r0) :
    r0 ∈ spec_keys spec ∧ ∀ k ∈ spec_keys spec, r0 ≤ k := by
  cases hor : ordered_rounds spec with
  | nil =>
    rw [hor] at hh
    cases hh
  | cons x xs =>
    rw [hor] at hh
    simp only [List.head?_cons, Option.some_inj] at hh
    subst hh
    constructor
    · refine (mem_ordered_rounds spec x).mp ?_
      rw [hor]
      exact List.mem_cons_self x xs
    · intro k hk
      have hmemk : k ∈ ordered_rounds spec := (mem_ordered_rounds spec k).mpr hk
      rw [hor] at hmemk
      have hs := ordered_rounds_sorted spec
      rw [hor, List.sorted_cons] at hs
      cases hmemk with
      | head => exact Nat.le_refl _
      | tail _ hkx => exact hs.1 k hkx

theorem st_quota_amt_full (spec : DebateSpec) (k : Nat) (st : DebateState)
    (cfg : RoundSpec)
    (hlk : lookup_round spec st.current_round = some cfg)
    (ho : st.round_agent_order = []) :
    st_quota spec k st st.current_round = round_quota k cfg.type := by
  simp only [st_quota, hlk]
  rw [if_neg (lt_irrefl st.current_round), if_pos trivial, if_pos ho]

theorem st_quota_amt_last (spec : DebateSpec) (k : Nat) (st : DebateState)
    (cfg : RoundSpec)
    (hlk : lookup_round spec st.current_round = some cfg)
    (ho : st.round_agent_order ≠ [])
    (hidx : st.current_agent_index < st.round_agent_order.length)
    (hlast : st.round_agent_order.length ≤ st.current_agent_index + 1) :
    st_quota spec k st st.current_round = 1 := by
  simp only [st_quota, hlk]
  rw [if_neg (lt_irrefl st.current_round), if_pos trivial, if_neg ho]
  omega

theorem parallel_account (spec : DebateSpec) (agents : List Agent) (llm : LLM)
    (st : DebateState) (cfg : RoundSpec)
    (hlk : lookup_round spec st.current_round = some cfg)
    (htp : cfg.type = RoundType.parallel)
    (ho : st.round_agent_order = [])
    (st2 : DebateState)
    (hex : execute_parallel_round spec agents llm st = some st2) :
    ∀ r, (st2.debate_transcript.drop st.debate_transcript.length).countP
        (fun e => decide (e.round = r)) + st_quota spec agents.length st2 r
      = st_quota spec agents.length st r := by
  rw [execute_parallel_round_eq spec agents llm st cfg hlk] at hex
  have h2 := (Option.some_inj.mp hex).symm
  have h2r : st2.current_round = next_round_number spec st.current_round := by
    rw [h2]
  have h2o : st2.round_agent_order = [] := by
    rw [h2]
    exact ho
  have h2tr : st2.debate_transcript = st.debate_transcript ++ agents.map (fun a =>
      create_transcript_entry a
        (invoke_agent llm (some a) cfg.prompt_template
          (build_round_context st.topic st.debate_transcript cfg.context_strategy))
        st.current_round) := by
    rw [h2]
  intro r
  rw [h2tr, List.drop_left, countP_entries_round,
    st_quota_next_general spec agents.length st st2 cfg
      (round_quota agents.length cfg.type) hlk
      (st_quota_amt_full spec agents.length st cfg hlk ho) h2r h2o r, htp]
  by_cases heq : st.current_round = r
  · rw [if_pos heq, if_pos heq.symm]
    rfl
  · rw [if_neg heq, if_neg (fun he => heq he.symm)]

theorem moderator_account (spec : DebateSpec) (llm : LLM) (k : Nat)
    (st : DebateState) (cfg : RoundSpec)
    (hlk : lookup_round spec st.current_round = some cfg)
    (htp : cfg.type = RoundType.moderator)
    (ho : st.round_agent_order = [])
    (st2 : DebateState)
    (hex : execute_moderator_round spec llm st = some st2) :
    ∀ r, (st2.debate_transcript.drop st.debate_transcript.length).countP
        (fun e => decide (e.round = r)) + st_quota spec k st2 r
      = st_quota spec k st r := by
  rw [execute_moderator_round_eq spec llm st cfg hlk] at hex
  have h2 := (Option.some_inj.mp hex).symm
  have h2r : st2.current_round = next_round_number spec st.current_round := by
    rw [h2]
  have h2o : st2.round_agent_order = [] := by
    rw [h2]
    exact ho
  have h2tr : st2.debate_transcript = st.debate_transcript ++
      [create_moderator_entry
        (invoke_agent llm none cfg.prompt_template
          (build_round_context st.topic st.debate_transcript cfg.context_strategy))
        st.current_round] := by
    rw [h2]
  intro r
  rw [h2tr, List.drop_left, countP_single_entry r st.current_round _ rfl,
    st_quota_next_general spec k st st2 cfg (round_quota k cfg.type) hlk
      (st_quota_amt_full spec k st cfg hlk ho) h2r h2o r, htp]
  by_cases heq : st.current_round = r
  · rw [if_pos heq, if_pos heq.symm]
    rfl
  · rw [if_neg heq, if_neg (fun he => heq he.symm)]

theorem turn_last_account (spec : DebateSpec) (llm : LLM) (k : Nat)
    (st : DebateState) (agent : Agent) (cfg : RoundSpec)
    (hag : st.round_agent_order.get? st.current_agent_index = some agent)
    (hlk : lookup_round spec st.current_round = some cfg)
    (ho : st.round_agent_order ≠ [])
    (hidx : st.current_agent_index < st.round_agent_order.length)
    (hlast : st.round_agent_order.length ≤ st.current_agent_index + 1)
    (st2 : DebateState)
    (hex : execute_sequential_turn spec llm st = some st2) :
    ∀ r, (st2.debate_transcript.drop st.debate_transcript.length).countP
        (fun e => decide (e.round = r)) + st_quota spec k st2 r
      = st_quota spec k st r := by
  rw [execute_sequential_turn_last_eq spec llm st agent cfg hag hlk hlast] at hex
  have h2 := (Option.some_inj.mp hex).symm
  have h2r : st2.current_round = next_round_number spec st.current_round := by
    rw [h2]
  have h2o : st2.round_agent_order = [] := by
    rw [h2]
  have h2tr : st2.debate_transcript = st.debate_transcript ++
      [create_transcript_entry agent
        (invoke_agent llm (some agent) cfg.prompt_template
          (build_round_context st.topic st.debate_transcript cfg.context_strategy))
        st.current_round] := by
    rw [h2]
  intro r
  rw [h2tr, List.drop_left, countP_single_entry r st.current_round _ rfl,
    st_quota_next_general spec k st st2 cfg 1 hlk
      (st_quota_amt_last spec k st cfg hlk ho hidx hlast) h2r h2o r]
  by_cases heq : st.current_round = r
  · rw [if_pos heq, if_pos heq.symm]
  · rw [if_neg heq, if_neg (fun he => heq he.symm)]

theorem turn_mid_account (spec : DebateSpec) (llm : LLM) (k : Nat)
    (st : DebateState) (agent : Agent) (cfg : RoundSpec)
    (hag : st.round_agent_order.get? st.current_agent_index = some agent)
    (hlk : lookup_round spec st.current_round = some cfg)
    (ho : st.round_agent_order ≠ [])
    (hidx : st.current_agent_index < st.round_agent_order.length)
    (hmid : ¬ st.round_agent_order.length ≤ st.current_agent_index + 1)
    (st2 : DebateState)
    (hex : execute_sequential_turn spec llm st = some st2) :
    ∀ r, (st2.debate_transcript.drop st.debate_transcript.length).countP
        (fun e => decide (e.round = r)) + st_quota spec k st2 r
      = st_quota spec k st r := by
  rw [execute_sequential_turn_mid_eq spec llm st agent cfg hag hlk hmid] at hex
  have h2 := (Option.some_inj.mp hex).symm
  have h2r : st2.current_round = st.current_round := by
    rw [h2]
  have h2o : st2.round_agent_order = st.round_agent_order := by
    rw [h2]
  have h2i : st2.current_agent_index = st.current_agent_index + 1 := by
    rw [h2]
  have h2tr : st2.debate_transcript = st.debate_transcript ++
      [create_transcript_entry agent
        (invoke_agent llm (some agent) cfg.prompt_template
          (build_round_context st.topic st.debate_transcript cfg.context_strategy))
        st.current_round] := by
    rw [h2]
  intro r
  rw [h2tr, List.drop_left, countP_single_entry r st.current_round _ rfl,
    st_quota_turn_mid spec k st st2 cfg hlk ho hidx h2r h2o h2i r]
  by_cases heq : st.current_round = r
  · rw [if_pos heq, if_pos heq.symm]
  · rw [if_neg heq, if_neg (fun he => heq he.symm)]

theorem setup_account (spec : DebateSpec) (agents : List Agent) (k : Nat)
    (hk : k = agents.length)
    (st : DebateState) (cfg : RoundSpec) (shuffled : List Agent)
    (hperm : shuffled.Perm agents)
    (hlk : lookup_round spec st.current_round = some cfg)
    (htp : cfg.type = RoundType.sequential)
    (ho : st.round_agent_order = [])
    (hiz : st.current_agent_index = 0) :
    ∀ r, ((setup_sequential_round spec agents shuffled st).debate_transcript.drop
        st.debate_transcript.length).countP (fun e => decide (e.round = r))
        + st_quota spec k (setup_sequential_round spec agents shuffled st) r
      = st_quota spec k st r := by
  intro r
  have hdrop : (setup_sequential_round spec agents shuffled st).debate_transcript.drop
      st.debate_transcript.length = [] := by
    dsimp only [setup_sequential_round]
    exact List.drop_length _
  rw [hdrop]
  have horder : (setup_sequential_round spec agents shuffled st).round_agent_order = []
      ∨ ((setup_sequential_round spec agents shuffled st).round_agent_order.length = k
        ∧ (setup_sequential_round spec agents shuffled st).current_agent_index = 0) := by
    by_cases hoe : (get_randomized_agents agents shuffled st.last_speaker_id) = []
    · exact Or.inl hoe
    · refine Or.inr ⟨?_, ?_⟩
      · rw [hk]
        exact (gra_perm agents shuffled st.last_speaker_id hperm).length_eq
      · exact hiz
  have hq := st_quota_setup spec k st (setup_sequential_round spec agents shuffled st)
    cfg hlk htp ho rfl horder r
  rw [hq, List.countP_nil, Nat.zero_add]

theorem run_aux_completed_counts (spec : DebateSpec) (agents : List Agent)
    (shuffles : Nat → List Agent) (llm : LLM) (limit : Nat)
    (hsh : ∀ i, (shuffles i).Perm agents) :
    ∀ (fuel steps si : Nat) (st : DebateState) (last : Option StatusContext)
      (acc evs : List Event),
      RunInv spec agents st →
      run_aux spec agents shuffles llm limit fuel steps si st last acc
        = RunResult.completed evs →
      (∀ r, responses_for_round r evs
          = responses_for_round r acc + st_quota spec agents.length st r) ∧
      completes_count evs = completes_count acc + 1 ∧
      evs.getLast? = some Event.debateComplete := by
  intro fuel
  induction fuel with
  | zero =>
    intro steps si st last acc evs hinv h
    simp only [run_aux] at h
    cases h
  | succ n ih =>
    intro steps si st last acc evs hinv h
    by_cases hb : limit < steps + 1
    · rw [run_aux_budget spec agents shuffles llm limit n steps si st last acc hb] at h
      cases h
    · have hb' : steps + 1 ≤ limit := by omega
      cases hlk : lookup_round spec st.current_round with
      | none =>
        rw [run_aux_end spec agents shuffles llm limit n steps si st last acc hb'
          (route_code_end spec st hlk)] at h
        simp only [RunResult.completed.injEq] at h
        refine ⟨?_, ?_, ?_⟩
        · intro r
          have hq : st_quota spec agents.length st r = 0 := by
            cases hr : lookup_round spec r with
            | none => simp only [st_quota, hr]
            | some cfgr =>
              have hmem := lookup_round_mem spec r cfgr hr
              have hlt := hinv.consistent hlk r hmem
              simp only [st_quota, hr]
              rw [if_pos hlt]
          rw [← h, responses_append, responses_emit_status, hq]
          have h0 : responses_for_round r [Event.debateComplete] = 0 := rfl
          rw [h0]
        · rw [← h, completes_append, completes_emit_status]
          have h1 : completes_count [Event.debateComplete] = 1 := rfl
          rw [h1]
        · rw [← h]
          exact List.getLast?_concat _
      | some cfg =>
        cases htp : cfg.type with
        | parallel =>
          have ho : st.round_agent_order = [] := by
            by_contra hne
            obtain ⟨cfg', hlk', htp'⟩ := hinv.order_seq hne
            rw [hlk] at hlk'
            have hc : cfg = cfg' := Option.some_inj.mp hlk'
            rw [← hc, htp] at htp'
            cases htp'
          have hex := execute_parallel_round_eq spec agents llm st cfg hlk
          rw [run_aux_parallel spec agents shuffles llm limit n steps si st last acc _
            hb' (route_code_parallel spec st cfg hlk htp) hex] at h
          obtain ⟨hresp, hcomp, hlast2⟩ := ih (steps + 2) si _ _ _ evs
            (by exact RunInv_advance spec agents st _ rfl ho (hinv.idx_zero ho)) h
          have hacct := parallel_account spec agents llm st cfg hlk htp ho _ hex
          refine ⟨?_, ?_, hlast2⟩
          · intro r
            have h1 := hresp r
            rw [responses_emit_exec, responses_emit_status] at h1
            have h2 := hacct r
            omega
          · rw [hcomp, completes_emit_exec, completes_emit_status]
        | sequential =>
          by_cases ho : st.round_agent_order = []
          · rw [run_aux_setup spec agents shuffles llm limit n steps si st last acc hb'
              (route_code_setup spec st cfg hlk htp ho)] at h
            have hinv2 := RunInv_setup spec agents st
              (setup_sequential_round spec agents (shuffles si) st) cfg hinv hlk htp ho
              rfl (gra_perm agents (shuffles si) st.last_speaker_id (hsh si)) rfl
            obtain ⟨hresp, hcomp, hlast2⟩ := ih (steps + 2) (si + 1) _ _ _ evs hinv2 h
            have hacct := setup_account spec agents agents.length rfl st cfg
              (shuffles si) (hsh si) hlk htp ho (hinv.idx_zero ho)
            refine ⟨?_, ?_, hlast2⟩
            · intro r
              have h1 := hresp r
              rw [responses_emit_exec, responses_emit_status] at h1
              have h2 := hacct r
              omega
            · rw [hcomp, completes_emit_exec, completes_emit_status]
          · have hidx := hinv.idx_lt ho
            cases hag : st.round_agent_order.get? st.current_agent_index with
            | none =>
              exfalso
              have := List.get?_eq_none.mp hag
              omega
            | some agent =>
              by_cases hlast : st.round_agent_order.length ≤ st.current_agent_index + 1
              · have hex := execute_sequential_turn_last_eq spec llm st agent cfg
                  hag hlk hlast
                rw [run_aux_turn spec agents shuffles llm limit n steps si st last acc _
                  hb' (route_code_turn spec st cfg hlk htp ho) hex] at h
                obtain ⟨hresp, hcomp, hlast2⟩ := ih (steps + 2) si _ _ _ evs
                  (by exact RunInv_advance spec agents st _ rfl rfl rfl) h
                have hacct := turn_last_account spec llm agents.length st agent cfg
                  hag hlk ho hidx hlast _ hex
                refine ⟨?_, ?_, hlast2⟩
                · intro r
                  have h1 := hresp r
                  rw [responses_emit_exec, responses_emit_status] at h1
                  have h2 := hacct r
                  omega
                · rw [hcomp, completes_emit_exec, completes_emit_status]
              · have hex := execute_sequential_turn_mid_eq spec llm st agent cfg
                  hag hlk hlast
                rw [run_aux_turn spec agents shuffles llm limit n steps si st last acc _
                  hb' (route_code_turn spec st cfg hlk htp ho) hex] at h
                have hidx2 : st.current_agent_index + 1 < st.round_agent_order.length := by
                  omega
                obtain ⟨hresp, hcomp, hlast2⟩ := ih (steps + 2) si _ _ _ evs
                  (by exact RunInv_mid spec agents st _ cfg hinv hlk htp ho hidx2 rfl rfl rfl) h
                have hacct := turn_mid_account spec llm agents.length st agent cfg
                  hag hlk ho hidx hlast _ hex
                refine ⟨?_, ?_, hlast2⟩
                · intro r
                  have h1 := hresp r
                  rw [responses_emit_exec, responses_emit_status] at h1
                  have h2 := hacct r
                  omega
                · rw [hcomp, completes_emit_exec, completes_emit_status]
        | moderator =>
          have ho : st.round_agent_order = [] := by
            by_contra hne
            obtain ⟨cfg', hlk', htp'⟩ := hinv.order_seq hne
            rw [hlk] at hlk'
            have hc : cfg = cfg' := Option.some_inj.mp hlk'
            rw [← hc, htp] at htp'
            cases htp'
          have hex := execute_moderator_round_eq spec llm st cfg hlk
          rw [run_aux_moderator spec agents shuffles llm limit n steps si st last acc _
            hb' (route_code_moderator spec st cfg hlk htp) hex] at h
          obtain ⟨hresp, hcomp, hlast2⟩ := ih (steps + 2) si _ _ _ evs
            (by exact RunInv_advance spec agents st _ rfl ho (hinv.idx_zero ho)) h
          have hacct := moderator_account spec llm agents.length st cfg hlk htp ho _ hex
          refine ⟨?_, ?_, hlast2⟩
          · intro r
            have h1 := hresp r
            rw [responses_emit_exec, responses_emit_status] at h1
            have h2 := hacct r
            omega
          · rw [hcomp, completes_emit_exec, completes_emit_status]

/-- C5: for every spec and participant list, a run that completes normally
emits exactly one `agent_response` per participant for each broadcast round
and each turn-based round (`k` events each), exactly one per synthesis round,
no responses for undefined rounds, and exactly one `debate_complete`, which is
the final event of the stream. -/
theorem c5_event_counts (spec : DebateSpec) (agents : List Agent) (topic : String)
    (shuffles : Nat → List Agent) (llm : LLM) (evs : List Event)
    (hsh : ∀ i, (shuffles i).Perm agents)
    (hrun : run_debate spec agents topic shuffles llm = RunResult.completed evs) :
    (∀ r cfg, lookup_round spec r = some cfg →
      responses_for_round r evs = round_quota agents.length cfg.type) ∧
    (∀ r, lookup_round spec r = none → responses_for_round r evs = 0) ∧
    completes_count evs = 1 ∧
    evs.getLast? = some Event.debateComplete := by
  simp only [run_debate] at hrun
  cases hh : (ordered_rounds spec).head? with
  | none =>
    rw [hh] at hrun
    cases hrun
  | some r0 =>
    rw [hh] at hrun
    obtain ⟨hr0mem, hr0min⟩ := head_ordered_min spec r0 hh
    have hinv : RunInv spec agents (initial_state topic agents r0) := by
      constructor
      · intro hne
        exact absurd rfl hne
      · intro hne
        exact absurd rfl hne
      · intro hne
        exact absurd rfl hne
      · intro _
        rfl
      · intro hnone
        exfalso
        obtain ⟨cfg0, hcfg0⟩ := mem_lookup_round_isSome spec r0 hr0mem
        have hnone' : lookup_round spec r0 = none := hnone
        rw [hcfg0] at hnone'
        cases hnone'
    obtain ⟨hresp, hcomp, hlast⟩ := run_aux_completed_counts spec agents shuffles llm
      (calculate_recursion_limit spec agents.length) hsh _ _ _ _ _ _ _ hinv hrun
    refine ⟨?_, ?_, ?_, hlast⟩
    · intro r cfg hr
      have h1 := hresp r
      have hq : st_quota spec agents.length (initial_state topic agents r0) r
          = round_quota agents.length cfg.type := by
        have hge : r0 ≤ r := hr0min r (lookup_round_mem spec r cfg hr)
        have hcur : (initial_state topic agents r0).current_round = r0 := rfl
        have hord : (initial_state topic agents r0).round_agent_order = [] := rfl
        simp only [st_quota, hr, hcur, hord]
        rw [if_neg (by omega : ¬ r < r0)]
        by_cases heq : r = r0
        · rw [if_pos heq, if_pos trivial]
        · rw [if_neg heq]
      rw [hq] at h1
      have h0 : responses_for_round r ([] : List Event) = 0 := rfl
      rw [h0, Nat.zero_add] at h1
      exact h1
    · intro r hr
      have h1 := hresp r
      have hq : st_quota spec agents.length (initial_state topic agents r0) r = 0 := by
        simp only [st_quota, hr]
      rw [hq] at h1
      have h0 : responses_for_round r ([] : List Event) = 0 := rfl
      omega
    · have h0 : completes_count ([] : List Event) = 0 := rfl
      rw [h0, Nat.zero_add] at hcomp
      exact hcomp

/-- The completed three-round reference run. -/
def c5_run : RunResult := run_debate spec3 [agentA, agentB] "T" shuffles_ab llm_ok

/-- Its event stream. -/
def c5_evs : List Event :=
  match c5_run with
  | RunResult.completed e => e
  | _ => []

/-- The round-3 configuration of `spec3`. -/
def cfg3 : RoundSpec :=
  { title := "Synthesis", type := RoundType.moderator,
    context_strategy := RoundContextStrategy.full_transcript, prompt_template := "p3" }

theorem c5_event_counts_witness :
    (∀ i, (shuffles_ab i).Perm [agentA, agentB]) ∧
    run_debate spec3 [agentA, agentB] "T" shuffles_ab llm_ok
      = RunResult.completed c5_evs ∧
    responses_for_round 1 c5_evs = 2 ∧
    responses_for_round 2 c5_evs = 2 ∧
    responses_for_round 3 c5_evs = 1 ∧
    responses_for_round 4 c5_evs = 0 ∧
    completes_count c5_evs = 1 ∧
    c5_evs.getLast? = some Event.debateComplete := by
  have hsh : ∀ i, (shuffles_ab i).Perm [agentA, agentB] := fun _ => List.Perm.refl _
  have hrun : run_debate spec3 [agentA, agentB] "T" shuffles_ab llm_ok
      = RunResult.completed c5_evs := rfl
  have hmain := c5_event_counts spec3 [agentA, agentB] "T" shuffles_ab llm_ok c5_evs
    hsh hrun
  exact ⟨hsh, hrun, hmain.1 1 cfg1 rfl, hmain.1 2 cfg2 rfl, hmain.1 3 cfg3 rfl,
    hmain.2.1 4 rfl, hmain.2.2.1, hmain.2.2.2⟩

/-- Forget a transcript entry's generated text, keeping speaker, role, round
and display metadata. -/
def erase_entry (e : TranscriptEntry) : TranscriptEntry :=
  { e with content := "" }

/-- Forget the generated text inside an event. -/
def erase_event : Event → Event
  | Event.agentResponse e => Event.agentResponse (erase_entry e)
  | ev => ev

/-- Forget the generated text of a whole stream. -/
def erase_events (evs : List Event) : List Event :=
  evs.map erase_event

/-- Forget the generated text inside a workflow state. -/
def erase_state (st : DebateState) : DebateState :=
  { st with debate_transcript := st.debate_transcript.map erase_entry }

/-- Forget the generated text inside a run outcome. -/
def erase_result : RunResult → RunResult
  | RunResult.completed evs => RunResult.completed (erase_events evs)
  | RunResult.budgetExceeded evs => RunResult.budgetExceeded (erase_events evs)
  | RunResult.invariantViolation evs => RunResult.invariantViolation (erase_events evs)

theorem erase_events_append (a b : List Event) :
    erase_events (a ++ b) = erase_events a ++ erase_events b :=
  List.map_append erase_event a b

theorem erase_events_responses (es : List TranscriptEntry) :
    erase_events (es.map Event.agentResponse)
      = (es.map erase_entry).map Event.agentResponse := by
  unfold erase_events
  rw [List.map_map, List.map_map]
  rfl

theorem erase_state_fields (st st' : DebateState) (h : erase_state st = erase_state st') :
    st.topic = st'.topic ∧ st.agents = st'.agents ∧
    st.debate_transcript.map erase_entry = st'.debate_transcript.map erase_entry ∧
    st.current_round = st'.current_round ∧
    st.round_agent_order = st'.round_agent_order ∧
    st.current_agent_index = st'.current_agent_index ∧
    st.status_context = st'.status_context ∧
    st.last_speaker_id = st'.last_speaker_id := by
  refine ⟨?_, ?_, ?_, ?_, ?_, ?_, ?_, ?_⟩
  · have hx := congrArg DebateState.topic h
    exact hx
  · have hx := congrArg DebateState.agents h
    exact hx
  · have hx := congrArg DebateState.debate_transcript h
    exact hx
  · have hx := congrArg DebateState.current_round h
    exact hx
  · have hx := congrArg DebateState.round_agent_order h
    exact hx
  · have hx := congrArg DebateState.current_agent_index h
    exact hx
  · have hx := congrArg DebateState.status_context h
    exact hx
  · have hx := congrArg DebateState.last_speaker_id h
    exact hx

theorem erase_state_ext (st st' : DebateState)
    (h1 : st.topic = st'.topic) (h2 : st.agents = st'.agents)
    (h3 : st.debate_transcript.map erase_entry = st'.debate_transcript.map erase_entry)
    (h4 : st.current_round = st'.current_round)
    (h5 : st.round_agent_order = st'.round_agent_order)
    (h6 : st.current_agent_index = st'.current_agent_index)
    (h7 : st.status_context = st'.status_context)
    (h8 : st.last_speaker_id = st'.last_speaker_id) :
    erase_state st = erase_state st' := by
  cases st
  cases st'
  simp only [erase_state] at h3 ⊢
  simp_all

theorem erase_emit_status (s : StatusContext) (last : Option StatusContext)
    (acc acc' : List Event) (hacc : erase_events acc = erase_events acc') :
    erase_events (emit_status s last acc).1 = erase_events (emit_status s last acc').1
    ∧ (emit_status s last acc).2 = (emit_status s last acc').2 := by
  unfold emit_status
  by_cases hc : last = some s
  · rw [if_pos hc, if_pos hc]
    exact ⟨hacc, rfl⟩
  · rw [if_neg hc, if_neg hc]
    refine ⟨?_, rfl⟩
    rw [erase_events_append, erase_events_append, hacc]

theorem erase_emit_exec (n n' : Nat) (st2 st2' : DebateState)
    (last : Option StatusContext) (acc acc' : List Event)
    (hacc : erase_events acc = erase_events acc')
    (hstat : st2.status_context = st2'.status_context)
    (hdrop : (st2.debate_transcript.drop n).map erase_entry
      = (st2'.debate_transcript.drop n').map erase_entry) :
    erase_events (emit_exec n st2 last acc).1 = erase_events (emit_exec n' st2' last acc').1
    ∧ (emit_exec n st2 last acc).2 = (emit_exec n' st2' last acc').2 := by
  unfold emit_exec
  rw [← hstat]
  cases hs : st2.status_context with
  | none =>
    refine ⟨?_, rfl⟩
    rw [erase_events_append, erase_events_append, hacc,
      erase_events_responses, erase_events_responses, hdrop]
  | some s =>
    obtain ⟨he1, he2⟩ := erase_emit_status s last acc acc' hacc
    refine ⟨?_, he2⟩
    rw [erase_events_append, erase_events_append, he1,
      erase_events_responses, erase_events_responses, hdrop]

theorem erase_parallel_entries (agents : List Agent) (cfg : RoundSpec)
    (llm llm' : LLM) (top top' : String) (tr tr' : List TranscriptEntry)
    (cur cur' : Nat) (hcur : cur = cur') :
    (agents.map (fun a => create_transcript_entry a
      (invoke_agent llm (some a) cfg.prompt_template
        (build_round_context top tr cfg.context_strategy)) cur)).map erase_entry
    = (agents.map (fun a => create_transcript_entry a
      (invoke_agent llm' (some a) cfg.prompt_template
        (build_round_context top' tr' cfg.context_strategy)) cur')).map erase_entry := by
  subst hcur
  rw [List.map_map, List.map_map]
  apply List.map_congr_left
  intro a _
  rfl

theorem parallel_erase (spec : DebateSpec) (agents : List Agent) (llm llm' : LLM)
    (st st' st2 st2' : DebateState) (cfg : RoundSpec)
    (hst : erase_state st = erase_state st')
    (hlk : lookup_round spec st.current_round = some cfg)
    (hex : execute_parallel_round spec agents llm st = some st2)
    (hex' : execute_parallel_round spec agents llm' st' = some st2') :
    erase_state st2 = erase_state st2' ∧
    st2.status_context = st2'.status_context ∧
    (st2.debate_transcript.drop st.debate_transcript.length).map erase_entry
      = (st2'.debate_transcript.drop st'.debate_transcript.length).map erase_entry := by
  obtain ⟨hto, hag, htr, hcr, hor, hix, hsc, hls⟩ := erase_state_fields st st' hst
  have hlk' : lookup_round spec st'.current_round = some cfg := by
    rw [← hcr]
    exact hlk
  rw [execute_parallel_round_eq spec agents llm st cfg hlk] at hex
  rw [execute_parallel_round_eq spec agents llm' st' cfg hlk'] at hex'
  have h2 := (Option.some_inj.mp hex).symm
  have h2' := (Option.some_inj.mp hex').symm
  refine ⟨?_, ?_, ?_⟩
  · rw [h2, h2']
    apply erase_state_ext
    · exact hto
    · exact hag
    · show (st.debate_transcript ++ _).map erase_entry
        = (st'.debate_transcript ++ _).map erase_entry
      rw [List.map_append, List.map_append, htr,
        erase_parallel_entries agents cfg llm llm' st.topic st'.topic
          st.debate_transcript st'.debate_transcript
          st.current_round st'.current_round hcr]
    · show next_round_number spec st.current_round = next_round_number spec st'.current_round
      rw [hcr]
    · exact hor
    · exact hix
    · show some _ = some _
      rw [hcr]
    · exact hls
  · rw [h2, h2']
    show some _ = some _
    rw [hcr]
  · rw [h2, h2']
    show ((st.debate_transcript ++ _).drop st.debate_transcript.length).map erase_entry
      = ((st'.debate_transcript ++ _).drop st'.debate_transcript.length).map erase_entry
    rw [List.drop_left, List.drop_left,
      erase_parallel_entries agents cfg llm llm' st.topic st'.topic
        st.debate_transcript st'.debate_transcript
        st.current_round st'.current_round hcr]

theorem moderator_erase (spec : DebateSpec) (llm llm' : LLM)
    (st st' st2 st2' : DebateState) (cfg : RoundSpec)
    (hst : erase_state st = erase_state st')
    (hlk : lookup_round spec st.current_round = some cfg)
    (hex : execute_moderator_round spec llm st = some st2)
    (hex' : execute_moderator_round spec llm' st' = some st2') :
    erase_state st2 = erase_state st2' ∧
    st2.status_context = st2'.status_context ∧
    (st2.debate_transcript.drop st.debate_transcript.length).map erase_entry
      = (st2'.debate_transcript.drop st'.debate_transcript.length).map erase_entry := by
  obtain ⟨hto, hag, htr, hcr, hor, hix, hsc, hls⟩ := erase_state_fields st st' hst
  have hlk' : lookup_round spec st'.current_round = some cfg := by
    rw [← hcr]
    exact hlk
  rw [execute_moderator_round_eq spec llm st cfg hlk] at hex
  rw [execute_moderator_round_eq spec llm' st' cfg hlk'] at hex'
  have h2 := (Option.some_inj.mp hex).symm
  have h2' := (Option.some_inj.mp hex').symm
  have hentry : ∀ (r1 r2 : String),
      [create_moderator_entry r1 st.current_round].map erase_entry
        = [create_moderator_entry r2 st'.current_round].map erase_entry := by
    intro r1 r2
    rw [← hcr]
    rfl
  refine ⟨?_, ?_, ?_⟩
  · rw [h2, h2']
    apply erase_state_ext
    · exact hto
    · exact hag
    · show (st.debate_transcript ++ _).map erase_entry
        = (st'.debate_transcript ++ _).map erase_entry
      rw [List.map_append, List.map_append, htr, hentry]
    · show next_round_number spec st.current_round = next_round_number spec st'.current_round
      rw [hcr]
    · exact hor
    · exact hix
    · show some _ = some _
      rw [hcr]
    · exact hls
  · rw [h2, h2']
    show some _ = some _
    rw [hcr]
  · rw [h2, h2']
    show ((st.debate_transcript ++ _).drop st.debate_transcript.length).map erase_entry
      = ((st'.debate_transcript ++ _).drop st'.debate_transcript.length).map erase_entry
    rw [List.drop_left, List.drop_left, hentry]

theorem setup_erase (spec : DebateSpec) (agents : List Agent) (shuffled : List Agent)
    (st st' : DebateState)
    (hst : erase_state st = erase_state st') :
    erase_state (setup_sequential_round spec agents shuffled st)
      = erase_state (setup_sequential_round spec agents shuffled st') ∧
    (setup_sequential_round spec agents shuffled st).status_context
      = (setup_sequential_round spec agents shuffled st').status_context ∧
    ((setup_sequential_round spec agents shuffled st).debate_transcript.drop
        st.debate_transcript.length).map erase_entry
      = ((setup_sequential_round spec agents shuffled st').debate_transcript.drop
        st'.debate_transcript.length).map erase_entry := by
  obtain ⟨hto, hag, htr, hcr, hor, hix, hsc, hls⟩ := erase_state_fields st st' hst
  refine ⟨?_, ?_, ?_⟩
  · apply erase_state_ext
    · exact hto
    · exact hag
    · exact htr
    · exact hcr
    · show get_randomized_agents agents shuffled st.last_speaker_id
        = get_randomized_agents agents shuffled st'.last_speaker_id
      rw [hls]
    · exact hix
    · show some _ = some _
      rw [hcr]
    · exact hls
  · show some _ = some _
    rw [hcr]
  · show (st.debate_transcript.drop st.debate_transcript.length).map erase_entry
      = (st'.debate_transcript.drop st'.debate_transcript.length).map erase_entry
    rw [List.drop_length, List.drop_length]

theorem execute_sequential_turn_none (spec : DebateSpec) (llm : LLM) (st : DebateState)
    (hag : st.round_agent_order.get? st.current_agent_index = none) :
    execute_sequential_turn spec llm st = none := by
  simp only [execute_sequential_turn, hag]

theorem erase_turn_entry (a : Agent) (r1 r2 : String) (cur cur' : Nat) (h : cur = cur') :
    [create_transcript_entry a r1 cur].map erase_entry
      = [create_transcript_entry a r2 cur'].map erase_entry := by
  subst h
  rfl

theorem turn_erase (spec : DebateSpec) (llm llm' : LLM)
    (st st' st2 st2' : DebateState) (agent : Agent) (cfg : RoundSpec)
    (hst : erase_state st = erase_state st')
    (hag : st.round_agent_order.get? st.current_agent_index = some agent)
    (hlk : lookup_round spec st.current_round = some cfg)
    (hex : execute_sequential_turn spec llm st = some st2)
    (hex' : execute_sequential_turn spec llm' st' = some st2') :
    erase_state st2 = erase_state st2' ∧
    st2.status_context = st2'.status_context ∧
    (st2.debate_transcript.drop st.debate_transcript.length).map erase_entry
      = (st2'.debate_transcript.drop st'.debate_transcript.length).map erase_entry := by
  obtain ⟨hto, hag2, htr, hcr, hor, hix, hsc, hls⟩ := erase_state_fields st st' hst
  have hlk' : lookup_round spec st'.current_round = some cfg := by
    rw [← hcr]
    exact hlk
  have hagg : st'.round_agent_order.get? st'.current_agent_index = some agent := by
    rw [← hor, ← hix]
    exact hag
  have hentry : ∀ (r1 r2 : String),
      [create_transcript_entry agent r1 st.current_round].map erase_entry
        = [create_transcript_entry agent r2 st'.current_round].map erase_entry :=
    fun r1 r2 => erase_turn_entry agent r1 r2 _ _ hcr
  by_cases hlast : st.round_agent_order.length ≤ st.current_agent_index + 1
  · have hlast' : st'.round_agent_order.length ≤ st'.current_agent_index + 1 := by
      rw [← hor, ← hix]
      exact hlast
    rw [execute_sequential_turn_last_eq spec llm st agent cfg hag hlk hlast] at hex
    rw [execute_sequential_turn_last_eq spec llm' st' agent cfg hagg hlk' hlast'] at hex'
    have h2 := (Option.some_inj.mp hex).symm
    have h2' := (Option.some_inj.mp hex').symm
    refine ⟨?_, ?_, ?_⟩
    · rw [h2, h2']
      apply erase_state_ext
      · exact hto
      · exact hag2
      · show (st.debate_transcript ++ _).map erase_entry
          = (st'.debate_transcript ++ _).map erase_entry
        rw [List.map_append, List.map_append, htr, hentry]
      · show next_round_number spec st.current_round
          = next_round_number spec st'.current_round
        rw [hcr]
      · rfl
      · rfl
      · show some _ = some _
        rw [hcr]
      · rfl
    · rw [h2, h2']
      show some _ = some _
      rw [hcr]
    · rw [h2, h2']
      show ((st.debate_transcript ++ _).drop st.debate_transcript.length).map erase_entry
        = ((st'.debate_transcript ++ _).drop st'.debate_transcript.length).map erase_entry
      rw [List.drop_left, List.drop_left, hentry]
  · have hlast' : ¬ st'.round_agent_order.length ≤ st'.current_agent_index + 1 := by
      rw [← hor, ← hix]
      exact hlast
    rw [execute_sequential_turn_mid_eq spec llm st agent cfg hag hlk hlast] at hex
    rw [execute_sequential_turn_mid_eq spec llm' st' agent cfg hagg hlk' hlast'] at hex'
    have h2 := (Option.some_inj.mp hex).symm
    have h2' := (Option.some_inj.mp hex').symm
    refine ⟨?_, ?_, ?_⟩
    · rw [h2, h2']
      apply erase_state_ext
      · exact hto
      · exact hag2
      · show (st.debate_transcript ++ _).map erase_entry
          = (st'.debate_transcript ++ _).map erase_entry
        rw [List.map_append, List.map_append, htr, hentry]
      · exact hcr
      · exact hor
      · show st.current_agent_index + 1 = st'.current_agent_index + 1
        rw [hix]
      · show some _ = some _
        rw [hcr]
      · exact hls
    · rw [h2, h2']
      show some _ = some _
      rw [hcr]
    · rw [h2, h2']
      show ((st.debate_transcript ++ _).drop st.debate_transcript.length).map erase_entry
        = ((st'.debate_transcript ++ _).drop st'.debate_transcript.length).map erase_entry
      rw [List.drop_left, List.drop_left, hentry]

theorem run_aux_erase (spec : DebateSpec) (agents : List Agent)
    (shuffles : Nat → List Agent) (llm llm' : LLM) (limit : Nat) :
    ∀ (fuel steps si : Nat) (st st' : DebateState) (last : Option StatusContext)
      (acc acc' : List Event),
      erase_state st = erase_state st' →
      erase_events acc = erase_events acc' →
      erase_result (run_aux spec agents shuffles llm limit fuel steps si st last acc)
        = erase_result
            (run_aux spec agents shuffles llm' limit fuel steps si st' last acc') := by
  intro fuel
  induction fuel with
  | zero =>
    intro steps si st st' last acc acc' hst hacc
    simp only [run_aux, erase_result]
    rw [hacc]
  | succ n ih =>
    intro steps si st st' last acc acc' hst hacc
    obtain ⟨hto, hag, htr, hcr, hor, hix, hsc, hls⟩ := erase_state_fields st st' hst
    by_cases hb : limit < steps + 1
    · rw [run_aux_budget spec agents shuffles llm limit n steps si st last acc hb,
        run_aux_budget spec agents shuffles llm' limit n steps si st' last acc' hb]
      simp only [erase_result]
      rw [hacc]
    · have hb' : steps + 1 ≤ limit := by omega
      cases hlk : lookup_round spec st.current_round with
      | none =>
        have hlk' : lookup_round spec st'.current_round = none := by
          rw [← hcr]
          exact hlk
        rw [run_aux_end spec agents shuffles llm limit n steps si st last acc hb'
            (route_code_end spec st hlk),
          run_aux_end spec agents shuffles llm' limit n steps si st' last acc' hb'
            (route_code_end spec st' hlk')]
        simp only [erase_result]
        rw [erase_events_append, erase_events_append,
          (erase_emit_status (code_status "END") last acc acc' hacc).1]
      | some cfg =>
        have hlk' : lookup_round spec st'.current_round = some cfg := by
          rw [← hcr]
          exact hlk
        cases htp : cfg.type with
        | parallel =>
          have hex := execute_parallel_round_eq spec agents llm st cfg hlk
          have hex' := execute_parallel_round_eq spec agents llm' st' cfg hlk'
          rw [run_aux_parallel spec agents shuffles llm limit n steps si st last acc _
              hb' (route_code_parallel spec st cfg hlk htp) hex,
            run_aux_parallel spec agents shuffles llm' limit n steps si st' last acc' _
              hb' (route_code_parallel spec st' cfg hlk' htp) hex']
          obtain ⟨hst2, hstat2, hdrop2⟩ := parallel_erase spec agents llm llm' st st' _ _
            cfg hst hlk hex hex'
          have hs2 : (emit_status (code_status "OPENING_STATEMENTS") last acc').2
              = (emit_status (code_status "OPENING_STATEMENTS") last acc).2 :=
            (erase_emit_status _ last acc acc' hacc).2.symm
          rw [hs2]
          obtain ⟨he1, he2⟩ := erase_emit_exec st.debate_transcript.length
            st'.debate_transcript.length _ _
            (emit_status (code_status "OPENING_STATEMENTS") last acc).2 _ _
            (erase_emit_status _ last acc acc' hacc).1 hstat2 hdrop2
          rw [← he2]
          exact ih (steps + 2) si _ _ _ _ _ hst2 he1
        | sequential =>
          by_cases ho : st.round_agent_order = []
          · have ho' : st'.round_agent_order = [] := by
              rw [← hor]
              exact ho
            rw [run_aux_setup spec agents shuffles llm limit n steps si st last acc hb'
                (route_code_setup spec st cfg hlk htp ho),
              run_aux_setup spec agents shuffles llm' limit n steps si st' last acc' hb'
                (route_code_setup spec st' cfg hlk' htp ho')]
            obtain ⟨hst2, hstat2, hdrop2⟩ := setup_erase spec agents (shuffles si)
              st st' hst
            have hs2 : (emit_status (code_status "SETUP_SEQUENTIAL_ROUND") last acc').2
                = (emit_status (code_status "SETUP_SEQUENTIAL_ROUND") last acc).2 :=
              (erase_emit_status _ last acc acc' hacc).2.symm
            rw [hs2]
            obtain ⟨he1, he2⟩ := erase_emit_exec st.debate_transcript.length
              st'.debate_transcript.length _ _
              (emit_status (code_status "SETUP_SEQUENTIAL_ROUND") last acc).2 _ _
              (erase_emit_status _ last acc acc' hacc).1 hstat2 hdrop2
            rw [← he2]
            exact ih (steps + 2) (si + 1) _ _ _ _ _ hst2 he1
          · have ho' : st'.round_agent_order ≠ [] := by
              rw [← hor]
              exact ho
            cases hag : st.round_agent_order.get? st.current_agent_index with
            | none =>
              have hagn : st'.round_agent_order.get? st'.current_agent_index = none := by
                rw [← hor, ← hix]
                exact hag
              rw [run_aux_turn_fail spec agents shuffles llm limit n steps si st last acc
                  hb' (route_code_turn spec st cfg hlk htp ho)
                  (execute_sequential_turn_none spec llm st hag),
                run_aux_turn_fail spec agents shuffles llm' limit n steps si st' last acc'
                  hb' (route_code_turn spec st' cfg hlk' htp ho')
                  (execute_sequential_turn_none spec llm' st' hagn)]
              simp only [erase_result]
              rw [(erase_emit_status (code_status "SEQUENTIAL_TURN") last acc acc' hacc).1]
            | some agent =>
              have hagg : st'.round_agent_order.get? st'.current_agent_index
                  = some agent := by
                rw [← hor, ← hix]
                exact hag
              by_cases hlast : st.round_agent_order.length ≤ st.current_agent_index + 1
              · have hlast' : st'.round_agent_order.length
                    ≤ st'.current_agent_index + 1 := by
                  rw [← hor, ← hix]
                  exact hlast
                have hex := execute_sequential_turn_last_eq spec llm st agent cfg
                  hag hlk hlast
                have hex' := execute_sequential_turn_last_eq spec llm' st' agent cfg
                  hagg hlk' hlast'
                rw [run_aux_turn spec agents shuffles llm limit n steps si st last acc _
                    hb' (route_code_turn spec st cfg hlk htp ho) hex,
                  run_aux_turn spec agents shuffles llm' limit n steps si st' last acc' _
                    hb' (route_code_turn spec st' cfg hlk' htp ho') hex']
                obtain ⟨hst2, hstat2, hdrop2⟩ := turn_erase spec llm llm' st st' _ _
                  agent cfg hst hag hlk hex hex'
                have hs2 : (emit_status (code_status "SEQUENTIAL_TURN") last acc').2
                    = (emit_status (code_status "SEQUENTIAL_TURN") last acc).2 :=
                  (erase_emit_status _ last acc acc' hacc).2.symm
                rw [hs2]
                obtain ⟨he1, he2⟩ := erase_emit_exec st.debate_transcript.length
                  st'.debate_transcript.length _ _
                  (emit_status (code_status "SEQUENTIAL_TURN") last acc).2 _ _
                  (erase_emit_status _ last acc acc' hacc).1 hstat2 hdrop2
                rw [← he2]
                exact ih (steps + 2) si _ _ _ _ _ hst2 he1
              · have hlast' : ¬ st'.round_agent_order.length
                    ≤ st'.current_agent_index + 1 := by
                  rw [← hor, ← hix]
                  exact hlast
                have hex := execute_sequential_turn_mid_eq spec llm st agent cfg
                  hag hlk hlast
                have hex' := execute_sequential_turn_mid_eq spec llm' st' agent cfg
                  hagg hlk' hlast'
                rw [run_aux_turn spec agents shuffles llm limit n steps si st last acc _
                    hb' (route_code_turn spec st cfg hlk htp ho) hex,
                  run_aux_turn spec agents shuffles llm' limit n steps si st' last acc' _
                    hb' (route_code_turn spec st' cfg hlk' htp ho') hex']
                obtain ⟨hst2, hstat2, hdrop2⟩ := turn_erase spec llm llm' st st' _ _
                  agent cfg hst hag hlk hex hex'
                have hs2 : (emit_status (code_status "SEQUENTIAL_TURN") last acc').2
                    = (emit_status (code_status "SEQUENTIAL_TURN") last acc).2 :=
                  (erase_emit_status _ last acc acc' hacc).2.symm
                rw [hs2]
                obtain ⟨he1, he2⟩ := erase_emit_exec st.debate_transcript.length
                  st'.debate_transcript.length _ _
                  (emit_status (code_status "SEQUENTIAL_TURN") last acc).2 _ _
                  (erase_emit_status _ last acc acc' hacc).1 hstat2 hdrop2
                rw [← he2]
                exact ih (steps + 2) si _ _ _ _ _ hst2 he1
        | moderator =>
          have hex := execute_moderator_round_eq spec llm st cfg hlk
          have hex' := execute_moderator_round_eq spec llm' st' cfg hlk'
          rw [run_aux_moderator spec agents shuffles llm limit n steps si st last acc _
              hb' (route_code_moderator spec st cfg hlk htp) hex,
            run_aux_moderator spec agents shuffles llm' limit n steps si st' last acc' _
              hb' (route_code_moderator spec st' cfg hlk' htp) hex']
          obtain ⟨hst2, hstat2, hdrop2⟩ := moderator_erase spec llm llm' st st' _ _
            cfg hst hlk hex hex'
          have hs2 : (emit_status (code_status "MODERATOR_ROUND") last acc').2
              = (emit_status (code_status "MODERATOR_ROUND") last acc).2 :=
            (erase_emit_status _ last acc acc' hacc).2.symm
          rw [hs2]
          obtain ⟨he1, he2⟩ := erase_emit_exec st.debate_transcript.length
            st'.debate_transcript.length _ _
            (emit_status (code_status "MODERATOR_ROUND") last acc).2 _ _
            (erase_emit_status _ last acc acc' hacc).1 hstat2 hdrop2
          rw [← he2]
          exact ih (steps + 2) si _ _ _ _ _ hst2 he1

theorem run_debate_erase (spec : DebateSpec) (agents : List Agent) (topic : String)
    (shuffles : Nat → List Agent) (llm llm' : LLM) :
    erase_result (run_debate spec agents topic shuffles llm)
      = erase_result (run_debate spec agents topic shuffles llm') := by
  unfold run_debate
  cases (ordered_rounds spec).head? with
  | none => rfl
  | some fr =>
    exact run_aux_erase spec agents shuffles llm llm' _ _ _ _ _ _ _ _ _ rfl rfl

theorem erase_events_length (evs : List Event) :
    (erase_events evs).length = evs.length :=
  List.length_map evs erase_event

theorem responses_erase (r : Nat) (evs : List Event) :
    responses_for_round r (erase_events evs) = responses_for_round r evs := by
  unfold responses_for_round erase_events
  rw [List.countP_map]
  apply List.countP_congr
  intro e _
  cases e <;> simp [is_response_for, erase_event, erase_entry]

theorem completes_erase (evs : List Event) :
    completes_count (erase_events evs) = completes_count evs := by
  unfold completes_count erase_events
  rw [List.countP_map]
  apply List.countP_congr
  intro e _
  cases e <;> simp [erase_event]

theorem erase_events_getLast_complete (evs evs' : List Event)
    (h : erase_events evs = erase_events evs')
    (hl : evs.getLast? = some Event.debateComplete) :
    evs'.getLast? = some Event.debateComplete := by
  have h2 : (erase_events evs).getLast? = (erase_events evs').getLast? := by rw [h]
  unfold erase_events at h2
  rw [List.getLast?_map, List.getLast?_map, hl] at h2
  cases hL : evs'.getLast? with
  | none =>
    rw [hL] at h2
    simp [erase_event] at h2
  | some e =>
    rw [hL] at h2
    cases e with
    | statusUpdate s => simp [erase_event] at h2
    | agentResponse x => simp [erase_event] at h2
    | debateComplete => rfl

/-- C7: per-call failure containment.  (i) When the completion collaborator
fails for a participant, `_invoke_agent` catches the failure and substitutes
the deterministic fallback text "Error generating response for {name}:
{message}".  (ii) A broadcast round in which exactly one participant's call
fails (and no other participant happens to produce the fallback string) still
appends one transcript entry per participant, exactly one of which carries the
fallback text.  (iii) The round and the run continue: control flow is
independent of the generated content, so whenever a run completes under one
collaborator, it completes under any other with an event stream of the same
length, the same number of `agent_response` events for every round, the same
number of `debate_complete` events, and the same final `debate_complete`. -/
theorem c7_call_failure_containment :
    (∀ (llm : LLM) (a : Agent) (p c msg : String),
      llm (agent_messages (some a) p c) = Except.error msg →
      invoke_agent llm (some a) p c
        = "Error generating response for " ++ a.name ++ ": " ++ msg)
    ∧ (∀ (spec : DebateSpec) (agents : List Agent) (llm : LLM) (st : DebateState)
        (cfg : RoundSpec) (a0 : Agent) (msg : String),
      lookup_round spec st.current_round = some cfg →
      agents.count a0 = 1 →
      llm (agent_messages (some a0) cfg.prompt_template
        (build_round_context st.topic st.debate_transcript cfg.context_strategy))
        = Except.error msg →
      (∀ a ∈ agents, a ≠ a0 →
        invoke_agent llm (some a) cfg.prompt_template
          (build_round_context st.topic st.debate_transcript cfg.context_strategy)
          ≠ "Error generating response for " ++ a0.name ++ ": " ++ msg) →
      ∃ st2, execute_parallel_round spec agents llm st = some st2 ∧
        st2.debate_transcript.length = st.debate_transcript.length + agents.length ∧
        (st2.debate_transcript.drop st.debate_transcript.length).countP
          (fun e => e.content
            = "Error generating response for " ++ a0.name ++ ": " ++ msg) = 1)
    ∧ (∀ (spec : DebateSpec) (agents : List Agent) (topic : String)
        (shuffles : Nat → List Agent) (llm llm' : LLM) (evs : List Event),
      run_debate spec agents topic shuffles llm = RunResult.completed evs →
      ∃ evs', run_debate spec agents topic shuffles llm' = RunResult.completed evs' ∧
        evs'.length = evs.length ∧
        (∀ r, responses_for_round r evs' = responses_for_round r evs) ∧
        completes_count evs' = completes_count evs ∧
        (evs.getLast? = some Event.debateComplete →
          evs'.getLast? = some Event.debateComplete)) := by
  refine ⟨?_, ?_, ?_⟩
  · intro llm a p c msg h
    simp only [invoke_agent, h]
  · intro spec agents llm st cfg a0 msg hlk hcount hfail hok
    have hex := execute_parallel_round_eq spec agents llm st cfg hlk
    refine ⟨_, hex, ?_, ?_⟩
    · simp [List.length_append, List.length_map]
    · simp only [List.drop_left]
      rw [List.countP_map]
      have hcg : agents.countP ((fun e => decide (TranscriptEntry.content e
            = "Error generating response for " ++ a0.name ++ ": " ++ msg)) ∘
          (fun a => create_transcript_entry a
            (invoke_agent llm (some a) cfg.prompt_template
              (build_round_context st.topic st.debate_transcript cfg.context_strategy))
            st.current_round))
          = agents.countP (fun a => a == a0) := by
        apply List.countP_congr
        intro a hmem
        by_cases haa : a = a0
        · subst haa
          simp only [Function.comp, create_transcript_entry, invoke_agent, hfail,
            beq_self_eq_true]
          simp
        · have hne := hok a hmem haa
          simp only [Function.comp, create_transcript_entry]
          constructor
          · intro hcontra
            exact absurd (of_decide_eq_true hcontra) hne
          · intro hcontra
            exact absurd (eq_of_beq hcontra) haa
      rw [hcg]
      exact hcount
  · intro spec agents topic shuffles llm llm' evs hrun
    have h := run_debate_erase spec agents topic shuffles llm llm'
    rw [hrun] at h
    cases hr' : run_debate spec agents topic shuffles llm' with
    | completed evs' =>
      rw [hr'] at h
      simp only [erase_result, RunResult.completed.injEq] at h
      refine ⟨evs', rfl, ?_, ?_, ?_, ?_⟩
      · rw [← erase_events_length evs', ← h, erase_events_length]
      · intro r
        rw [← responses_erase r evs', ← h, responses_erase]
      · rw [← completes_erase evs', ← h, completes_erase]
      · intro hl
        exact erase_events_getLast_complete evs evs' h hl
    | budgetExceeded evs' =>
      rw [hr'] at h
      simp [erase_result] at h
    | invariantViolation evs' =>
      rw [hr'] at h
      simp [erase_result] at h

/-- A collaborator that fails exactly on calls carrying agent A's system
prompt and answers "ok" everywhere else. -/
def llm_fail_a : LLM := fun msgs =>
  if msgs.head? = some (Message.system "pa") then Except.error "boom"
  else Except.ok "ok"

/-- The initial state of a two-participant run on `spec3`. -/
def c7_st0 : DebateState := initial_state "T" [agentA, agentB] 1

theorem c7_call_failure_containment_witness :
    invoke_agent llm_fail_a (some agentA) "p1" "c"
      = "Error generating response for " ++ agentA.name ++ ": " ++ "boom"
    ∧ (∃ st2, execute_parallel_round spec3 [agentA, agentB] llm_fail_a c7_st0 = some st2 ∧
        st2.debate_transcript.length
          = c7_st0.debate_transcript.length + ([agentA, agentB] : List Agent).length ∧
        (st2.debate_transcript.drop c7_st0.debate_transcript.length).countP
          (fun e => e.content
            = "Error generating response for " ++ agentA.name ++ ": " ++ "boom") = 1)
    ∧ (∃ evs', run_debate spec3 [agentA, agentB] "T" shuffles_ab llm_fail_a
          = RunResult.completed evs' ∧
        evs'.length = c5_evs.length ∧
        (∀ r, responses_for_round r evs' = responses_for_round r c5_evs) ∧
        completes_count evs' = completes_count c5_evs ∧
        (c5_evs.getLast? = some Event.debateComplete →
          evs'.getLast? = some Event.debateComplete)) := by
  refine ⟨?_, ?_, ?_⟩
  · exact c7_call_failure_containment.1 llm_fail_a agentA "p1" "c" "boom" rfl
  · exact c7_call_failure_containment.2.1 spec3 [agentA, agentB] llm_fail_a c7_st0 cfg1
      agentA "boom" rfl (by decide) rfl (by decide)
  · exact c7_call_failure_containment.2.2 spec3 [agentA, agentB] "T" shuffles_ab
      llm_ok llm_fail_a c5_evs rfl
